import Mathlib

/-!
Priority message queue (`main.c`): a shallow embedding of the heap-backed message queue of
`main.c` and a verification of its specification.

Memory model:

* A `message_t *` is either `NULL` (`none`) or a pointer to an allocated record
  (`some p`): `p.addr` is the address `calloc` returned and `p.obj` the record it
  points to.  Records are written once, inside `add_message`, before the pointer
  is stored in a slot, and are never written again, so a pointer carries its
  pointee.  Pointer comparison (`pop_queue`) compares addresses, `NULL` being 0.
* `messages` is the array allocated by `create_queue`: a list of slots whose
  length is the number of allocated slots (none when the allocation failed and
  `messages` is the null pointer).  An access outside it is a fault.
* `size_t` is 64 bits wide (the slot array is allocated with
  `sizeof(uint64_t)` per pointer), `uint32_t` 32 bits.
* An execution ends in one of three ways (`Exec`): it returns, it faults (null
  dereference or out-of-bounds access), or the iteration budget given to a loop
  ran out.  Each outcome carries the state of the memory at that point.
-/

set_option autoImplicit false
set_option maxRecDepth 16384

namespace PriorityQueue

/-! ## Data model -/

/-- The constant `#define MSG_SIZE 1024`. -/
def MSG_SIZE : Nat := 1024

/-- The record type `typedef struct _message { ... } message_t;`. -/
structure message_t where
  id : Nat
  command : Nat
  priority : Nat
  error_code : Nat
  data_size : Nat
  data : List Nat
deriving DecidableEq

/-- A non-null `message_t *`: the address of the allocation and the record stored there. -/
structure message_ptr where
  addr : Nat
  obj : message_t
deriving DecidableEq

/-- The queue type `typedef struct _message_queue { ... } message_queue_t;`: the slot array,
the capacity and the number of live slots. -/
structure message_queue_t where
  messages : List (Option message_ptr)
  queue_size : Nat
  last_element : Nat
deriving DecidableEq

/-- The ways an execution can go wrong in memory. -/
inductive Fault where
  | null_deref
  | out_of_bounds
deriving DecidableEq

/-- Outcome of running a function: a return value with the final state, a fault with the
state at the faulting access, or an exhausted loop budget with the state reached. -/
inductive Exec (ρ σ : Type) where
  | ret (r : ρ) (s : σ)
  | fault (f : Fault) (s : σ)
  | timeout (s : σ)
deriving DecidableEq

/-- The memory state an execution ended in. -/
def Exec.state {ρ σ : Type} : Exec ρ σ → σ
  | .ret _ s => s
  | .fault _ s => s
  | .timeout s => s

/-- Numeric value of a pointer: `NULL` is 0. -/
def ptr_addr : Option message_ptr → Nat
  | none => 0
  | some p => p.addr

/-! ## Operations -/

/-- Source function `create_queue`.  `calloc(queue_size, sizeof(uint64_t))` allocates
`queue_size` slots, all `NULL`, when the byte size `queue_size * 8` fits `size_t`; otherwise
`calloc` fails and `messages` is the null pointer, an array without any accessible slot.  The
result of `calloc` is not checked: `queue_size` and `last_element` are stored in both cases.
A request whose byte size fits is taken to be served. -/
def create_queue (queue_size : Nat) : message_queue_t :=
  { messages := if queue_size * 8 < 2 ^ 64 then List.replicate queue_size none else []
    queue_size := queue_size
    last_element := 0 }

/-- The `while` loop of `add_message` (lines 81-91).  The first argument bounds the number of
evaluations of the loop condition; `add_message` passes `parent_index + 2`, which is never
used up (`add_message_loop_fuel`). -/
def add_message_loop :
    Nat → List (Option message_ptr) → message_ptr → Nat → Nat → Exec Unit (List (Option message_ptr))
  | 0, messages, _, _, _ => .timeout messages
  | fuel + 1, messages, new_message, curr_index, parent_index =>
    match messages[curr_index]? with
    | none => .fault .out_of_bounds messages
    | some none => .fault .null_deref messages
    | some (some curr) =>
      match messages[parent_index]? with
      | none => .fault .out_of_bounds messages
      | some none => .fault .null_deref messages
      | some (some parent_message) =>
        if curr.obj.priority < parent_message.obj.priority then
          add_message_loop fuel
            ((messages.set parent_index (some new_message)).set curr_index (some parent_message))
            new_message parent_index (parent_index / 2)
        else .ret () messages

/-- The record `add_message` allocates and fills (lines 63, 72-77): `calloc` zeroes the
`MSG_SIZE` data bytes and `memcpy` overwrites the first `data_size` of them. -/
def new_record (new_message id command priority error_code data_size : Nat) (data : List Nat) :
    message_ptr :=
  { addr := new_message
    obj :=
      { id := id, command := command, priority := priority, error_code := error_code
        data_size := data_size
        data := data.take data_size ++ List.replicate (MSG_SIZE - data_size) 0 } }

/-- Source function `add_message`.  `new_message` is the address returned by `calloc(sizeof(message_t), 1)`
(0 when the allocation failed); `data` is the caller's buffer, read by `memcpy`.
`curr_index` and `parent_index` are `uint32_t`, `last_element` is `size_t`. -/
def add_message (queue : message_queue_t) (new_message : Nat)
    (id command priority error_code data_size : Nat) (data : List Nat) :
    Exec Nat message_queue_t :=
  let curr_index := queue.last_element % 2 ^ 32
  if data_size > MSG_SIZE then .ret 255 queue
  else if new_message = 0 then .fault .null_deref queue
  else if data.length < data_size then .fault .out_of_bounds queue
  else
    let record := new_record new_message id command priority error_code data_size data
    if curr_index < queue.messages.length then
      let parent_index := (queue.last_element / 2) % 2 ^ 32
      match add_message_loop (parent_index + 2) (queue.messages.set curr_index (some record))
          record curr_index parent_index with
      | .ret _ messages =>
        .ret 0 { queue with messages := messages
                            last_element := (queue.last_element + 1) % 2 ^ 64 }
      | .fault f messages => .fault f { queue with messages := messages }
      | .timeout messages => .timeout { queue with messages := messages }
    else .fault .out_of_bounds queue

/-- Source function `peek_queue`: `return queue->messages[0];`. -/
def peek_queue (queue : message_queue_t) : Exec (Option message_ptr) message_queue_t :=
  match queue.messages[0]? with
  | some m => .ret m queue
  | none => .fault .out_of_bounds queue

/-- The `while` loop of `pop_queue` (lines 118-128): the state is the three index variables
`curr_index`, `left_child_i`, `right_child_i`; the slots are only read, and the pointers
themselves are compared. -/
def pop_queue_loop :
    Nat → List (Option message_ptr) → Nat → Nat → Nat → Exec Unit (Nat × Nat × Nat)
  | 0, _, curr_index, left_child_i, right_child_i =>
    .timeout (curr_index, left_child_i, right_child_i)
  | fuel + 1, messages, curr_index, left_child_i, right_child_i =>
    match messages[curr_index]? with
    | none => .fault .out_of_bounds (curr_index, left_child_i, right_child_i)
    | some curr =>
      match messages[left_child_i]? with
      | none => .fault .out_of_bounds (curr_index, left_child_i, right_child_i)
      | some left =>
        if ptr_addr curr > ptr_addr left then
          pop_queue_loop fuel messages curr_index
            ((curr_index * 2 + 1) % 2 ^ 64) ((curr_index * 2 + 2) % 2 ^ 64)
        else
          match messages[right_child_i]? with
          | none => .fault .out_of_bounds (curr_index, left_child_i, right_child_i)
          | some right =>
            if ptr_addr curr > ptr_addr right then
              pop_queue_loop fuel messages curr_index
                ((curr_index * 2 + 1) % 2 ^ 64) ((curr_index * 2 + 2) % 2 ^ 64)
            else .ret () (curr_index, left_child_i, right_child_i)

/-- Source function `pop_queue`.  `fuel` bounds the evaluations of the bubble-down loop condition; `data` is
the caller's output buffer.  The state is the queue together with that buffer.  The function
has no `return` statement, so there is no return value. -/
def pop_queue (fuel : Nat) (queue : message_queue_t) (data : List Nat) :
    Exec Unit (message_queue_t × List Nat) :=
  match queue.messages[0]? with
  | none => .fault .out_of_bounds (queue, data)
  | some none => .fault .null_deref (queue, data)
  | some (some top_message) =>
    if top_message.obj.data.length < top_message.obj.data_size
        ∨ data.length < top_message.obj.data_size then
      .fault .out_of_bounds (queue, data)
    else
      let data1 := top_message.obj.data.take top_message.obj.data_size
        ++ data.drop top_message.obj.data_size
      let last_element := (queue.last_element + (2 ^ 64 - 1)) % 2 ^ 64
      match queue.messages[last_element]? with
      | none => .fault .out_of_bounds ({ queue with last_element := last_element }, data1)
      | some last_message =>
        let messages := queue.messages.set 0 last_message
        match pop_queue_loop fuel messages 0 1 2 with
        | .ret _ _ =>
          .ret () ({ queue with messages := messages.set last_element none
                                last_element := last_element }, data1)
        | .fault f _ =>
          .fault f ({ queue with messages := messages, last_element := last_element }, data1)
        | .timeout _ =>
          .timeout ({ queue with messages := messages, last_element := last_element }, data1)

/-! ## Drivers and predicates -/

/-- The arguments of one `add_message` call, the address `calloc` hands out included. -/
structure add_call where
  new_message : Nat
  id : Nat
  command : Nat
  priority : Nat
  error_code : Nat
  data_size : Nat
  data : List Nat
deriving DecidableEq

/-- Run `add_message` with the arguments of a call. -/
def add_call.run (queue : message_queue_t) (c : add_call) : Exec Nat message_queue_t :=
  add_message queue c.new_message c.id c.command c.priority c.error_code c.data_size c.data

/-- A sequence of successful `add_message` calls: every call returns 0; the result is the
final queue, or `none` as soon as one call does not return 0. -/
def add_messages : message_queue_t → List add_call → Option message_queue_t
  | queue, [] => some queue
  | queue, c :: cs =>
    match add_call.run queue c with
    | .ret 0 queue1 => add_messages queue1 cs
    | _ => none

/-- A call that `add_message` can serve: the allocation succeeded, the size is within
`MSG_SIZE` and the caller's buffer holds `data_size` bytes. -/
def add_call.valid (c : add_call) : Prop :=
  c.new_message ≠ 0 ∧ c.data_size ≤ MSG_SIZE ∧ c.data_size ≤ c.data.length

instance (c : add_call) : Decidable c.valid := by
  unfold add_call.valid
  infer_instance

/-- Priority of the record in slot `i`, if the slot exists and holds a record. -/
def priority_at (messages : List (Option message_ptr)) (i : Nat) : Option Nat :=
  match messages[i]? with
  | some (some p) => some p.obj.priority
  | _ => none

/-- Priority of the record in slot `i`, 0 when there is none (used for live slots only). -/
def prio (messages : List (Option message_ptr)) (i : Nat) : Nat :=
  match messages[i]? with
  | some (some p) => p.obj.priority
  | _ => 0

/-- Density: every slot below `n` holds a record. -/
def live (messages : List (Option message_ptr)) (n : Nat) : Prop :=
  ∀ i, i < n → ∃ p, messages[i]? = some (some p)


/-- Scenario 1 of the specification: ("hello", 5), ("test", 1), ("mid", 3), allocated at
increasing addresses. -/
def scenario_calls : List add_call :=
  [ { new_message := 4096, id := 0, command := 1, priority := 5, error_code := 0,
      data_size := 5, data := [104, 101, 108, 108, 111, 0] },
    { new_message := 8192, id := 0, command := 1, priority := 1, error_code := 0,
      data_size := 4, data := [116, 101, 115, 116, 0] },
    { new_message := 12288, id := 0, command := 1, priority := 3, error_code := 0,
      data_size := 3, data := [109, 105, 100, 0] } ]

/-- A capacity one above the range of the 32-bit index `curr_index`. -/
def wide_capacity : Nat := 2 ^ 32 + 1

/-- The `i`-th of a run of calls that all carry priority 5 and no payload. -/
def flat_call (i : Nat) : add_call :=
  { new_message := 4096 * (i + 1), id := i, command := 0, priority := 5, error_code := 0,
    data_size := 0, data := [] }

/-- A call of priority 9 and no payload. -/
def wide_last_call : add_call :=
  { new_message := 4096 * (2 ^ 32 + 1), id := 0, command := 0, priority := 9, error_code := 0,
    data_size := 0, data := [] }

/-- A run of `2 ^ 32` calls of priority 5 followed by one call of priority 9. -/
def wide_calls : List add_call :=
  (List.range (2 ^ 32)).map flat_call ++ [wide_last_call]

/-- Every slot below `n` holds a record of priority `P`. -/
def flat (P : Nat) (messages : List (Option message_ptr)) (n : Nat) : Prop :=
  ∀ i, i < n → ∃ p, messages[i]? = some (some p) ∧ p.obj.priority = P

/-- The two `add_message` calls of `main` (lines 139 and 145), at increasing addresses. -/
def main_calls : List add_call :=
  [ { new_message := 4096, id := 0, command := 1, priority := 1, error_code := 0,
      data_size := 5, data := [104, 101, 108, 108, 111, 0] },
    { new_message := 8192, id := 0, command := 1, priority := 0, error_code := 0,
      data_size := 4, data := [116, 101, 115, 116, 0] } ]

/-- The output buffer of `main` (line 156): `char data[1024] = {0}`. -/
def main_buffer : List Nat := List.replicate 1024 0

/-- A call without payload, allocated at `new_message`, of the given priority. -/
def plain_call (new_message priority : Nat) : add_call :=
  { new_message := new_message, id := 0, command := 0, priority := priority, error_code := 0,
    data_size := 0, data := [] }

/-- Five calls with priorities 1, 6, 8, 4, 2, allocated at increasing addresses. -/
def unsorted_calls : List add_call :=
  [plain_call 4096 1, plain_call 8192 6, plain_call 12288 8, plain_call 16384 4,
    plain_call 20480 2]

/-- Seven calls with priorities 0, 1, 5, 2, 5, 5, 3, allocated at increasing addresses. -/
def skewed_calls : List add_call :=
  [plain_call 4096 0, plain_call 8192 1, plain_call 12288 5, plain_call 16384 2,
    plain_call 20480 5, plain_call 24576 5, plain_call 28672 3]

/-- Four calls with priorities 1, 6, 7, 5, allocated at increasing addresses. -/
def sunk_calls : List add_call :=
  [plain_call 4096 1, plain_call 8192 6, plain_call 12288 7, plain_call 16384 5]

/-- Both slots hold a record and the priority in slot `i` is at most the one in slot `j`. -/
def slot_le (messages : List (Option message_ptr)) (i j : Nat) : Bool :=
  match priority_at messages i, priority_at messages j with
  | some a, some b => decide (a ≤ b)
  | _, _ => false

/-- The heap property of the specification over the slots `[0, n)`, with
`parent(i) = (i - 1) / 2`. -/
def heap_property (messages : List (Option message_ptr)) (n : Nat) : Prop :=
  ∀ i, i < n → 1 ≤ i → slot_le messages ((i - 1) / 2) i = true

instance (messages : List (Option message_ptr)) (n : Nat) :
    Decidable (heap_property messages n) := by
  unfold heap_property
  infer_instance

/-- The queue built by the four `sunk_calls` on `create_queue 4`. -/
def sunk_queue : message_queue_t :=
  (add_messages (create_queue 4) sunk_calls).getD (create_queue 4)

/-- The payload "test" of scenario 1. -/
def test_payload : List Nat := [116, 101, 115, 116]

/-- The queue of scenario 1: capacity 4 holding the three records of `scenario_calls`. -/
def scenario_queue : message_queue_t :=
  (add_messages (create_queue 4) scenario_calls).getD (create_queue 4)

/-- The order the sift-up loop of `add_message` works with, over the slots `[0, n)`:
`parent_index` is `curr_index / 2`. -/
def halving_order (messages : List (Option message_ptr)) (n : Nat) : Prop :=
  ∀ i, i < n → 1 ≤ i → slot_le messages (i / 2) i = true

instance (messages : List (Option message_ptr)) (n : Nat) :
    Decidable (halving_order messages n) := by
  unfold halving_order
  infer_instance

/-- The slot indices the sift-up loop of `add_message` reads or writes, in program order,
with the control flow of `add_message_loop`: the condition reads `messages[curr_index]` and
`messages[parent_index]`; the body reads `messages[parent_index]`, writes
`messages[parent_index]` and writes `messages[curr_index]`. -/
def add_message_loop_accesses :
    Nat → List (Option message_ptr) → message_ptr → Nat → Nat → List Nat
  | 0, _, _, _, _ => []
  | fuel + 1, messages, new_message, curr_index, parent_index =>
    match messages[curr_index]? with
    | none => [curr_index]
    | some none => [curr_index]
    | some (some curr) =>
      match messages[parent_index]? with
      | none => [curr_index, parent_index]
      | some none => [curr_index, parent_index]
      | some (some parent_message) =>
        if curr.obj.priority < parent_message.obj.priority then
          curr_index :: parent_index :: parent_index :: parent_index :: curr_index ::
            add_message_loop_accesses fuel
              ((messages.set parent_index (some new_message)).set curr_index
                (some parent_message))
              new_message parent_index (parent_index / 2)
        else [curr_index, parent_index]

/-- The slot indices `add_message` reads or writes: the store at `curr_index` (line 78)
followed by the accesses of the loop. -/
def add_message_accesses (queue : message_queue_t) (new_message : Nat)
    (id command priority error_code data_size : Nat) (data : List Nat) : List Nat :=
  let curr_index := queue.last_element % 2 ^ 32
  if data_size > MSG_SIZE then []
  else if new_message = 0 then []
  else if data.length < data_size then []
  else
    let record := new_record new_message id command priority error_code data_size data
    if curr_index < queue.messages.length then
      let parent_index := (queue.last_element / 2) % 2 ^ 32
      curr_index :: add_message_loop_accesses (parent_index + 2)
        (queue.messages.set curr_index (some record)) record curr_index parent_index
    else [curr_index]

/-- The queue of capacity `2 ^ 32 + 1` after `2 ^ 32` successful calls of priority 5. -/
@[irreducible]
def wide_queue : message_queue_t :=
  (add_messages (create_queue wide_capacity) ((List.range (2 ^ 32)).map flat_call)).getD
    (create_queue 0)

/-- One call on a queue: `add_message` with its arguments, or `pop_queue` with the caller's
output buffer. -/
inductive queue_op where
  | add (c : add_call)
  | pop (data : List Nat)
deriving DecidableEq

/-- A sequence of successful calls: an `add_message` is made only while
`last_element < queue_size` and must return 0, a `pop_queue` is made only on a non-empty
queue and must return (within `fuel` evaluations of its loop condition); the result is the
final queue, or `none` as soon as one call is not of this kind. -/
def run_ops (fuel : Nat) : message_queue_t → List queue_op → Option message_queue_t
  | queue, [] => some queue
  | queue, .add c :: ops =>
    if queue.last_element < queue.queue_size then
      match add_call.run queue c with
      | .ret 0 queue1 => run_ops fuel queue1 ops
      | _ => none
    else none
  | queue, .pop data :: ops =>
    if queue.last_element = 0 then none
    else
      match pop_queue fuel queue data with
      | .ret _ s => run_ops fuel s.1 ops
      | _ => none

/-- The representation invariant of a queue of capacity `n`: `n` allocated slots, of which
exactly those below `last_element` hold a record. -/
def dense_queue (n : Nat) (queue : message_queue_t) : Prop :=
  queue.messages.length = n ∧ queue.queue_size = n ∧ queue.last_element ≤ n
    ∧ live queue.messages queue.last_element
    ∧ ∀ i, queue.last_element ≤ i → i < n → queue.messages[i]? = some none

/-- Five `add_message` calls (`unsorted_calls`) followed by two `pop_queue` calls with an
empty output buffer. -/
def density_ops : List queue_op :=
  unsorted_calls.map queue_op.add ++ [queue_op.pop [], queue_op.pop []]

/-- The queue reached by `density_ops` from `create_queue 5`. -/
def density_queue : message_queue_t :=
  (run_ops 1 (create_queue 5) density_ops).getD (create_queue 5)

/-- Reference sift-up of the specification (section 4.1, step 3): starting at index `i`,
while `i > 0` and `priority(slots[i]) < priority(slots[parent(i)])` with
`parent(i) = (i - 1) / 2`, swap the element at `i` with its parent and set `i = parent(i)`.
The first argument bounds the number of iterations. -/
def spec_sift_up : Nat → List (Option message_ptr) → Nat → List (Option message_ptr)
  | 0, slots, _ => slots
  | fuel + 1, slots, i =>
    if i > 0 then
      match slots[i]?, slots[(i - 1) / 2]? with
      | some (some child), some (some parent) =>
        if child.obj.priority < parent.obj.priority then
          spec_sift_up fuel ((slots.set i (some parent)).set ((i - 1) / 2) (some child))
            ((i - 1) / 2)
        else slots
      | _, _ => slots
    else slots

/-- Reference enqueue of the specification (section 4.1, steps 2 and 3): place the new
record at index `count`, then sift up from there. -/
def spec_enqueue (slots : List (Option message_ptr)) (count : Nat) (record : message_ptr) :
    List (Option message_ptr) :=
  spec_sift_up (count + 1) (slots.set count (some record)) count

/-- The slot indices the bubble-down loop of `pop_queue` reads, in program order, with the
control flow of `pop_queue_loop`: the condition reads `messages[curr_index]` and
`messages[left_child_i]`, and when the first comparison is false `messages[curr_index]` and
`messages[right_child_i]`. -/
def pop_queue_loop_accesses : Nat → List (Option message_ptr) → Nat → Nat → Nat → List Nat
  | 0, _, _, _, _ => []
  | fuel + 1, messages, curr_index, left_child_i, right_child_i =>
    match messages[curr_index]? with
    | none => [curr_index]
    | some curr =>
      match messages[left_child_i]? with
      | none => [curr_index, left_child_i]
      | some left =>
        if ptr_addr curr > ptr_addr left then
          curr_index :: left_child_i ::
            pop_queue_loop_accesses fuel messages curr_index
              ((curr_index * 2 + 1) % 2 ^ 64) ((curr_index * 2 + 2) % 2 ^ 64)
        else
          match messages[right_child_i]? with
          | none => [curr_index, left_child_i, curr_index, right_child_i]
          | some right =>
            if ptr_addr curr > ptr_addr right then
              curr_index :: left_child_i :: curr_index :: right_child_i ::
                pop_queue_loop_accesses fuel messages curr_index
                  ((curr_index * 2 + 1) % 2 ^ 64) ((curr_index * 2 + 2) % 2 ^ 64)
            else [curr_index, left_child_i, curr_index, right_child_i]

/-- The slot indices `pop_queue` reads while bubbling down: the accesses of its loop, run on
the slots as they are after the last record was moved to slot 0. -/
def pop_queue_accesses (fuel : Nat) (queue : message_queue_t) (data : List Nat) : List Nat :=
  match queue.messages[0]? with
  | none => []
  | some none => []
  | some (some top_message) =>
    if top_message.obj.data.length < top_message.obj.data_size
        ∨ data.length < top_message.obj.data_size then []
    else
      let last_element := (queue.last_element + (2 ^ 64 - 1)) % 2 ^ 64
      match queue.messages[last_element]? with
      | none => []
      | some last_message =>
        pop_queue_loop_accesses fuel (queue.messages.set 0 last_message) 0 1 2

/-- The first call of `main` alone. -/
def single_call : add_call :=
  { new_message := 4096, id := 0, command := 1, priority := 1, error_code := 0,
    data_size := 5, data := [104, 101, 108, 108, 111, 0] }

/-! ## Lemmas on `add_message` -/

theorem prio_of_get {messages : List (Option message_ptr)} {i : Nat} {p : message_ptr}
    (h : messages[i]? = some (some p)) : prio messages i = p.obj.priority := by
  simp [prio, h]

theorem prio_set_self (messages : List (Option message_ptr)) (j : Nat) (x : message_ptr)
    (hj : j < messages.length) : prio (messages.set j (some x)) j = x.obj.priority := by
  simp [prio, hj]

theorem prio_set_ne (messages : List (Option message_ptr)) (i j : Nat) (x : Option message_ptr)
    (h : j ≠ i) : prio (messages.set j x) i = prio messages i := by
  simp [prio, List.getElem?_set_ne h]

theorem live_set {messages : List (Option message_ptr)} {n : Nat} (j : Nat) (x : message_ptr)
    (h : live messages n) : live (messages.set j (some x)) n := by
  intro i hi
  obtain ⟨p, hp⟩ := h i hi
  by_cases hij : j = i
  · subst hij
    have hlt : j < messages.length := by
      by_contra hge
      rw [List.getElem?_eq_none (by omega)] at hp
      cases hp
    exact ⟨x, by simp [hlt]⟩
  · exact ⟨p, by rw [List.getElem?_set_ne hij]; exact hp⟩

theorem add_message_loop_step (fuel : Nat) (messages : List (Option message_ptr))
    (new_message c p : message_ptr) (curr_index parent_index : Nat)
    (hc : messages[curr_index]? = some (some c)) (hp : messages[parent_index]? = some (some p)) :
    add_message_loop (fuel + 1) messages new_message curr_index parent_index =
      if c.obj.priority < p.obj.priority then
        add_message_loop fuel
          ((messages.set parent_index (some new_message)).set curr_index (some p))
          new_message parent_index (parent_index / 2)
      else .ret () messages := by
  simp only [add_message_loop, hc, hp]

theorem add_message_loop_returns (L : Nat) (new_message : message_ptr) :
    ∀ (fuel : Nat) (messages : List (Option message_ptr)) (curr_index parent_index : Nat),
      curr_index < L → parent_index < L → live messages L →
      messages[curr_index]? = some (some new_message) →
      (curr_index = parent_index → 1 ≤ fuel) →
      (curr_index ≠ parent_index → parent_index + 2 ≤ fuel) →
      ∃ messages1, add_message_loop fuel messages new_message curr_index parent_index
          = .ret () messages1
        ∧ messages1.length = messages.length ∧ live messages1 L
        ∧ ∀ i, L ≤ i → messages1[i]? = messages[i]? := by
  intro fuel
  induction fuel with
  | zero =>
    intro messages c p _ _ _ _ h1 h2
    by_cases h : c = p
    · have := h1 h; omega
    · have := h2 h; omega
  | succ f ih =>
    intro messages c p hc hp hlive hnew h1 h2
    obtain ⟨pm, hpm⟩ := hlive p hp
    rw [add_message_loop_step f messages new_message new_message pm c p hnew hpm]
    by_cases hlt : new_message.obj.priority < pm.obj.priority
    · rw [if_pos hlt]
      have hne : c ≠ p := by
        intro h
        subst h
        rw [hnew] at hpm
        cases hpm
        exact Nat.lt_irrefl _ hlt
      have hplen : p < messages.length := by
        by_contra hge
        rw [List.getElem?_eq_none (by omega)] at hpm
        cases hpm
      have hfuel := h2 hne
      obtain ⟨m1, hrun, hlen, hl1, hframe⟩ :=
        ih ((messages.set p (some new_message)).set c (some pm)) p (p / 2) hp (by omega)
          (live_set c pm (live_set p new_message hlive))
          (by rw [List.getElem?_set_ne hne]; simp [hplen])
          (by intro _; omega) (by intro _; omega)
      refine ⟨m1, hrun, by simpa using hlen, hl1, ?_⟩
      intro i hi
      rw [hframe i hi, List.getElem?_set_ne (by omega), List.getElem?_set_ne (by omega)]
    · rw [if_neg hlt]
      exact ⟨messages, rfl, rfl, hlive, fun _ _ => rfl⟩

theorem add_message_loop_order (L : Nat) (new_message : message_ptr) :
    ∀ (fuel : Nat) (messages messages1 : List (Option message_ptr)) (curr_index : Nat),
      curr_index < L → live messages L →
      messages[curr_index]? = some (some new_message) →
      (∀ i, 1 ≤ i → i < L → i ≠ curr_index → prio messages (i / 2) ≤ prio messages i) →
      (∀ i, i < L → i ≠ curr_index → i / 2 = curr_index →
        prio messages (curr_index / 2) ≤ prio messages i) →
      add_message_loop fuel messages new_message curr_index (curr_index / 2)
        = .ret () messages1 →
      ∀ i, 1 ≤ i → i < L → prio messages1 (i / 2) ≤ prio messages1 i := by
  intro fuel
  induction fuel with
  | zero =>
    intro messages messages1 c _ _ _ _ _ hrun
    simp [add_message_loop] at hrun
  | succ f ih =>
    intro messages messages1 c hc hlive hnew H1 H2 hrun
    obtain ⟨pm, hpm⟩ := hlive (c / 2) (by omega)
    rw [add_message_loop_step f messages new_message new_message pm c (c / 2) hnew hpm] at hrun
    have hpc : prio messages c = new_message.obj.priority := prio_of_get hnew
    have hpp : prio messages (c / 2) = pm.obj.priority := prio_of_get hpm
    by_cases hlt : new_message.obj.priority < pm.obj.priority
    · rw [if_pos hlt] at hrun
      have hne : c ≠ c / 2 := by
        intro h
        rw [← h, hnew] at hpm
        cases hpm
        exact Nat.lt_irrefl _ hlt
      have hc0 : 1 ≤ c := by omega
      have hplen : c / 2 < messages.length := by
        by_contra hge
        rw [List.getElem?_eq_none (by omega)] at hpm
        cases hpm
      have hclen : c < messages.length := by
        by_contra hge
        rw [List.getElem?_eq_none (by omega)] at hnew
        cases hnew
      -- priorities after the swap
      have hP : ∀ j, prio ((messages.set (c / 2) (some new_message)).set c (some pm)) j
          = if j = c then pm.obj.priority
            else if j = c / 2 then new_message.obj.priority else prio messages j := by
        intro j
        by_cases hjc : j = c
        · subst hjc
          rw [if_pos rfl]
          exact prio_set_self _ _ _ (by simpa using hclen)
        · rw [if_neg hjc, prio_set_ne _ _ _ _ (Ne.symm hjc)]
          by_cases hjp : j = c / 2
          · rw [if_pos hjp, hjp]
            exact prio_set_self _ _ _ hplen
          · rw [if_neg hjp, prio_set_ne _ _ _ _ (Ne.symm hjp)]
      refine ih _ messages1 (c / 2) (by omega)
        (live_set c pm (live_set (c / 2) new_message hlive))
        (by rw [List.getElem?_set_ne hne]; simp [hplen]) ?_ ?_ hrun
      · intro i hi1 hiL hip
        rw [hP i, hP (i / 2)]
        by_cases hic : i = c
        · subst hic
          rw [if_pos rfl, if_neg (Ne.symm hne), if_pos rfl]
          omega
        · rw [if_neg hic, if_neg hip]
          by_cases h2c : i / 2 = c
          · rw [if_pos h2c]
            have := H2 i hiL hic h2c
            omega
          · rw [if_neg h2c]
            have h1 := H1 i hi1 hiL hic
            by_cases h2p : i / 2 = c / 2
            · rw [if_pos h2p]
              rw [h2p] at h1
              omega
            · rw [if_neg h2p]
              exact h1
      · intro i hiL hip hi2
        rw [hP i, hP (c / 2 / 2)]
        have hgc : c / 2 / 2 ≠ c := by omega
        rw [if_neg hgc]
        by_cases hic : i = c
        · rw [if_pos hic]
          by_cases hg : c / 2 / 2 = c / 2
          · rw [if_pos hg]; omega
          · rw [if_neg hg]
            have := H1 (c / 2) (by omega) (by omega) (Ne.symm hne)
            omega
        · rw [if_neg hic, if_neg hip]
          have h1 := H1 i (by omega) hiL hic
          rw [hi2] at h1
          by_cases hg : c / 2 / 2 = c / 2
          · rw [if_pos hg]; omega
          · rw [if_neg hg]
            have := H1 (c / 2) (by omega) (by omega) (Ne.symm hne)
            omega
    · rw [if_neg hlt] at hrun
      cases hrun
      intro i hi1 hiL
      by_cases hic : i = c
      · subst hic
        omega
      · exact H1 i hi1 hiL hic

theorem add_message_eq (queue : message_queue_t) (new_message id command priority error_code
    data_size : Nat) (data : List Nat) (hsize : data_size ≤ MSG_SIZE) (hnew : new_message ≠ 0)
    (hdata : data_size ≤ data.length) (hlast : queue.last_element % 2 ^ 32 < queue.messages.length) :
    add_message queue new_message id command priority error_code data_size data =
      match add_message_loop ((queue.last_element / 2) % 2 ^ 32 + 2)
          (queue.messages.set (queue.last_element % 2 ^ 32)
            (some (new_record new_message id command priority error_code data_size data)))
          (new_record new_message id command priority error_code data_size data)
          (queue.last_element % 2 ^ 32) ((queue.last_element / 2) % 2 ^ 32) with
      | .ret _ messages =>
        .ret 0 { queue with messages := messages
                            last_element := (queue.last_element + 1) % 2 ^ 64 }
      | .fault f messages => .fault f { queue with messages := messages }
      | .timeout messages => .timeout { queue with messages := messages } := by
  unfold add_message
  rw [if_neg (by omega), if_neg hnew, if_neg (by omega), if_pos hlast]

theorem add_message_ok (queue : message_queue_t) (new_message id command priority error_code
    data_size : Nat) (data : List Nat) (hsize : data_size ≤ MSG_SIZE) (hnew : new_message ≠ 0)
    (hdata : data_size ≤ data.length) (hlen : queue.last_element < queue.messages.length)
    (h32 : queue.last_element < 2 ^ 32) (hlive : live queue.messages queue.last_element)
    (hord : ∀ i, 1 ≤ i → i < queue.last_element →
      prio queue.messages (i / 2) ≤ prio queue.messages i) :
    ∃ queue1, add_message queue new_message id command priority error_code data_size data
        = .ret 0 queue1
      ∧ queue1.messages.length = queue.messages.length
      ∧ queue1.queue_size = queue.queue_size
      ∧ queue1.last_element = queue.last_element + 1
      ∧ live queue1.messages (queue.last_element + 1)
      ∧ (∀ i, 1 ≤ i → i < queue.last_element + 1 →
          prio queue1.messages (i / 2) ≤ prio queue1.messages i)
      ∧ ∀ i, queue.last_element + 1 ≤ i → queue1.messages[i]? = queue.messages[i]? := by
  have hm1 : queue.last_element % 2 ^ 32 = queue.last_element := Nat.mod_eq_of_lt h32
  have hm2 : (queue.last_element / 2) % 2 ^ 32 = queue.last_element / 2 :=
    Nat.mod_eq_of_lt (by omega)
  have hm3 : (queue.last_element + 1) % 2 ^ 64 = queue.last_element + 1 :=
    Nat.mod_eq_of_lt (by omega)
  rw [add_message_eq queue new_message id command priority error_code data_size data hsize hnew
    hdata (by omega), hm1, hm2, hm3]
  generalize new_record new_message id command priority error_code data_size data = record
  have hslot : (queue.messages.set queue.last_element (some record))[queue.last_element]?
      = some (some record) := by simp [hlen]
  have hlive0 : live (queue.messages.set queue.last_element (some record))
      (queue.last_element + 1) := by
    intro i hi
    by_cases h : i = queue.last_element
    · exact ⟨record, by rw [h]; exact hslot⟩
    · obtain ⟨p, hp⟩ := hlive i (by omega)
      exact ⟨p, by rw [List.getElem?_set_ne (Ne.symm h)]; exact hp⟩
  obtain ⟨m1, hrun, hlen1, hlive1, hframe⟩ :=
    add_message_loop_returns (queue.last_element + 1) record (queue.last_element / 2 + 2)
      (queue.messages.set queue.last_element (some record)) queue.last_element
      (queue.last_element / 2) (by omega) (by omega) hlive0 hslot (by intro _; omega)
      (by intro _; omega)
  have hord1 := add_message_loop_order (queue.last_element + 1) record
    (queue.last_element / 2 + 2) (queue.messages.set queue.last_element (some record)) m1
    queue.last_element (by omega) hlive0 hslot
    (by
      intro i hi1 hiL hne
      rw [prio_set_ne _ _ _ _ (by omega), prio_set_ne _ _ _ _ (Ne.symm hne)]
      exact hord i hi1 (by omega))
    (by
      intro i hiL hne h2
      omega)
    hrun
  rw [hrun]
  refine ⟨_, rfl, ?_, rfl, rfl, hlive1, hord1, ?_⟩
  · simpa using hlen1
  · intro i hi
    show m1[i]? = _
    rw [hframe i hi, List.getElem?_set_ne (by omega)]

theorem add_messages_ok :
    ∀ (calls : List add_call) (queue : message_queue_t),
      (∀ c ∈ calls, c.valid) →
      queue.last_element + calls.length ≤ queue.messages.length →
      queue.last_element + calls.length ≤ 2 ^ 32 →
      live queue.messages queue.last_element →
      (∀ i, 1 ≤ i → i < queue.last_element →
        prio queue.messages (i / 2) ≤ prio queue.messages i) →
      ∃ queue1, add_messages queue calls = some queue1
        ∧ queue1.messages.length = queue.messages.length
        ∧ queue1.queue_size = queue.queue_size
        ∧ queue1.last_element = queue.last_element + calls.length
        ∧ live queue1.messages queue1.last_element
        ∧ (∀ i, 1 ≤ i → i < queue1.last_element →
            prio queue1.messages (i / 2) ≤ prio queue1.messages i)
        ∧ ∀ i, queue1.last_element ≤ i → queue1.messages[i]? = queue.messages[i]? := by
  intro calls
  induction calls with
  | nil =>
    intro queue _ _ _ hlive hord
    exact ⟨queue, rfl, rfl, rfl, rfl, hlive, hord, fun _ _ => rfl⟩
  | cons c cs ih =>
    intro queue hvalid hlen h32 hlive hord
    have hc : c.valid := hvalid c (List.mem_cons_self _ _)
    simp only [List.length_cons] at hlen h32
    obtain ⟨q1, hrun, hlen1, hsize1, hlast1, hlive1, hord1, hframe1⟩ :=
      add_message_ok queue c.new_message c.id c.command c.priority c.error_code c.data_size
        c.data hc.2.1 hc.1 hc.2.2 (by omega) (by omega) hlive hord
    rw [← hlast1] at hlive1 hord1
    obtain ⟨q2, hrun2, hlen2, hsize2, hlast2, hlive2, hord2, hframe2⟩ :=
      ih q1 (fun d hd => hvalid d (List.mem_cons_of_mem _ hd)) (by omega) (by omega) hlive1 hord1
    refine ⟨q2, ?_, by omega, by omega, ?_, hlive2, hord2, ?_⟩
    · simp only [add_messages, add_call.run, hrun]
      exact hrun2
    · simp only [List.length_cons]; omega
    · intro i hi
      rw [hframe2 i hi, hframe1 i (by omega)]

theorem prio_root_le (messages : List (Option message_ptr)) (n : Nat)
    (hord : ∀ i, 1 ≤ i → i < n → prio messages (i / 2) ≤ prio messages i) :
    ∀ i, i < n → prio messages 0 ≤ prio messages i := by
  intro i
  induction i using Nat.strong_induction_on with
  | _ i ih =>
    intro hi
    by_cases h0 : i = 0
    · subst h0; exact Nat.le_refl _
    · exact Nat.le_trans (ih (i / 2) (by omega) (by omega)) (hord i (by omega) hi)

theorem create_queue_messages (n : Nat) (hn : n * 8 < 2 ^ 64) :
    (create_queue n).messages = List.replicate n none := by
  show (if n * 8 < 2 ^ 64 then List.replicate n none else []) = List.replicate n none
  rw [if_pos hn]

theorem live_zero (messages : List (Option message_ptr)) : live messages 0 := by
  intro i hi
  omega

/-- After successful calls on a fresh queue the slots from `last_element` on are still
`NULL`. -/
theorem add_messages_vacant (n : Nat) (calls : List add_call) (queue : message_queue_t)
    (hn : n * 8 < 2 ^ 64) (h32 : calls.length ≤ 2 ^ 32) (hk : calls.length ≤ n) (hvalid : ∀ c ∈ calls, c.valid)
    (hrun : add_messages (create_queue n) calls = some queue) :
    ∀ i, queue.last_element ≤ i → i < n → queue.messages[i]? = some none := by
  obtain ⟨q, hq, _, _, _, _, _, hframe⟩ :=
    add_messages_ok calls (create_queue n) hvalid
      (by
        rw [create_queue_messages n hn, List.length_replicate]
        show 0 + calls.length ≤ n
        omega)
      (by show 0 + calls.length ≤ 2 ^ 32; omega)
      (live_zero _) (fun i _ hi => absurd hi (Nat.not_lt_zero i))
  rw [hq] at hrun
  cases hrun
  intro i hi hin
  rw [hframe i hi, create_queue_messages n hn, List.getElem?_replicate]
  simp [hin]

/-! ## Lemmas on `pop_queue` -/

theorem pop_queue_loop_spin (messages : List (Option message_ptr)) (curr left : Option message_ptr)
    (h0 : messages[0]? = some curr) (h1 : messages[1]? = some left)
    (hgt : ptr_addr curr > ptr_addr left
      ∨ ∃ right, messages[2]? = some right ∧ ptr_addr curr > ptr_addr right) :
    ∀ fuel, pop_queue_loop fuel messages 0 1 2 = .timeout (0, 1, 2) := by
  intro fuel
  induction fuel with
  | zero => rfl
  | succ f ih =>
    have e1 : (0 * 2 + 1) % 2 ^ 64 = 1 := by norm_num
    have e2 : (0 * 2 + 2) % 2 ^ 64 = 2 := by norm_num
    simp only [pop_queue_loop, h0, h1]
    by_cases hl : ptr_addr curr > ptr_addr left
    · rw [if_pos hl, e1, e2]; exact ih
    · rw [if_neg hl]
      rcases hgt with h | ⟨right, h2, hr⟩
      · exact absurd h hl
      · simp only [h2]
        rw [if_pos hr, e1, e2]; exact ih

theorem pop_queue_timeout (queue : message_queue_t) (data : List Nat) (top : message_ptr)
    (last_message left : Option message_ptr)
    (htop : queue.messages[0]? = some (some top))
    (hsz : top.obj.data_size ≤ top.obj.data.length) (hbuf : top.obj.data_size ≤ data.length)
    (hlast : queue.messages[(queue.last_element + (2 ^ 64 - 1)) % 2 ^ 64]? = some last_message)
    (h1 : queue.messages[1]? = some left)
    (hgt : ptr_addr last_message > ptr_addr left
      ∨ ∃ right, queue.messages[2]? = some right ∧ ptr_addr last_message > ptr_addr right) :
    ∀ fuel, pop_queue fuel queue data = .timeout
      ({ queue with messages := queue.messages.set 0 last_message
                    last_element := (queue.last_element + (2 ^ 64 - 1)) % 2 ^ 64 },
        top.obj.data.take top.obj.data_size ++ data.drop top.obj.data_size) := by
  intro fuel
  have hlen : 0 < queue.messages.length := by
    by_contra hge
    rw [List.getElem?_eq_none (by omega)] at htop
    cases htop
  have hspin := pop_queue_loop_spin (queue.messages.set 0 last_message) last_message left
    (by simp [hlen]) (by rw [List.getElem?_set_ne (by norm_num)]; exact h1)
    (by
      rcases hgt with h | ⟨right, h2, hr⟩
      · exact Or.inl h
      · exact Or.inr ⟨right, by rw [List.getElem?_set_ne (by norm_num)]; exact h2, hr⟩)
    fuel
  unfold pop_queue
  simp only [htop, hlast, hspin]
  rw [if_neg (by omega)]

theorem new_record_data_length (new_message id command priority error_code data_size : Nat)
    (data : List Nat) (hsize : data_size ≤ MSG_SIZE) (hdata : data_size ≤ data.length) :
    (new_record new_message id command priority error_code data_size data).obj.data.length
      = MSG_SIZE := by
  show (data.take data_size ++ List.replicate (MSG_SIZE - data_size) 0).length = MSG_SIZE
  rw [List.length_append, List.length_take, List.length_replicate]
  omega

theorem main_buffer_length : main_buffer.length = 1024 := by
  unfold main_buffer
  rw [List.length_replicate]


theorem add_message_returns (queue : message_queue_t) (new_message id command priority
    error_code data_size : Nat) (data : List Nat) (hsize : data_size ≤ MSG_SIZE)
    (hnew : new_message ≠ 0) (hdata : data_size ≤ data.length)
    (hlen : queue.last_element < queue.messages.length)
    (hlive : live queue.messages queue.last_element) :
    ∃ queue1, add_message queue new_message id command priority error_code data_size data
        = .ret 0 queue1
      ∧ queue1.messages.length = queue.messages.length
      ∧ queue1.queue_size = queue.queue_size
      ∧ queue1.last_element = (queue.last_element + 1) % 2 ^ 64 := by
  have hcurr : queue.last_element % 2 ^ 32 < queue.messages.length :=
    Nat.lt_of_le_of_lt (Nat.mod_le _ _) hlen
  rw [add_message_eq queue new_message id command priority error_code data_size data hsize hnew
    hdata hcurr]
  generalize new_record new_message id command priority error_code data_size data = record
  have hslot : (queue.messages.set (queue.last_element % 2 ^ 32) (some record))[
      queue.last_element % 2 ^ 32]? = some (some record) := List.getElem?_set_self hcurr
  have hloop : ∃ messages1,
      add_message_loop (queue.last_element / 2 % 2 ^ 32 + 2)
        (queue.messages.set (queue.last_element % 2 ^ 32) (some record)) record
        (queue.last_element % 2 ^ 32) (queue.last_element / 2 % 2 ^ 32) = .ret () messages1
      ∧ messages1.length = queue.messages.length := by
    by_cases h32 : queue.last_element < 2 ^ 32
    · have hlive0 : live (queue.messages.set (queue.last_element % 2 ^ 32) (some record))
          (queue.last_element + 1) := by
        intro i hi
        by_cases h : i = queue.last_element % 2 ^ 32
        · exact ⟨record, by rw [h]; exact hslot⟩
        · obtain ⟨p, hp⟩ := hlive i (by omega)
          exact ⟨p, by rw [List.getElem?_set_ne (Ne.symm h)]; exact hp⟩
      obtain ⟨m1, hrun, hlen1, _, _⟩ :=
        add_message_loop_returns (queue.last_element + 1) record
          (queue.last_element / 2 % 2 ^ 32 + 2)
          (queue.messages.set (queue.last_element % 2 ^ 32) (some record))
          (queue.last_element % 2 ^ 32) (queue.last_element / 2 % 2 ^ 32) (by omega) (by omega)
          hlive0 hslot (by intro _; omega) (by intro _; omega)
      exact ⟨m1, hrun, by simpa using hlen1⟩
    · obtain ⟨m1, hrun, hlen1, _, _⟩ :=
        add_message_loop_returns queue.last_element record
          (queue.last_element / 2 % 2 ^ 32 + 2)
          (queue.messages.set (queue.last_element % 2 ^ 32) (some record))
          (queue.last_element % 2 ^ 32) (queue.last_element / 2 % 2 ^ 32) (by omega) (by omega)
          (live_set _ record hlive) hslot (by intro _; omega) (by intro _; omega)
      exact ⟨m1, hrun, by simpa using hlen1⟩
  obtain ⟨m1, hrun, hlen1⟩ := hloop
  rw [hrun]
  exact ⟨_, rfl, hlen1, rfl, rfl⟩

theorem add_message_ret_inv (queue queue1 : message_queue_t) (new_message id command priority
    error_code data_size r : Nat) (data : List Nat) (hsize : data_size ≤ MSG_SIZE)
    (h : add_message queue new_message id command priority error_code data_size data
      = .ret r queue1) :
    r = 0 ∧ queue1.last_element = (queue.last_element + 1) % 2 ^ 64
      ∧ queue1.queue_size = queue.queue_size := by
  unfold add_message at h
  simp only at h
  rw [if_neg (by omega)] at h
  split_ifs at h
  split at h
  · cases h
    exact ⟨rfl, rfl, rfl⟩
  · cases h
  · cases h

theorem pop_queue_ret_inv (fuel : Nat) (queue : message_queue_t) (data : List Nat)
    (s : message_queue_t × List Nat) (h : pop_queue fuel queue data = .ret () s) :
    s.1.last_element = (queue.last_element + (2 ^ 64 - 1)) % 2 ^ 64
      ∧ s.1.queue_size = queue.queue_size := by
  unfold pop_queue at h
  split at h
  · cases h
  · cases h
  · split_ifs at h
    simp only at h
    split at h
    · cases h
    · split at h
      · cases h
        exact ⟨rfl, rfl⟩
      · cases h
      · cases h

theorem pop_queue_buffer (fuel : Nat) (queue : message_queue_t) (data : List Nat)
    (top : message_ptr) (htop : queue.messages[0]? = some (some top))
    (hsz : top.obj.data_size ≤ top.obj.data.length) (hbuf : top.obj.data_size ≤ data.length) :
    (pop_queue fuel queue data).state.2
      = top.obj.data.take top.obj.data_size ++ data.drop top.obj.data_size := by
  unfold pop_queue
  simp only [htop]
  rw [if_neg (by omega)]
  split
  · rfl
  · split <;> rfl

theorem pop_queue_no_record (fuel : Nat) (queue : message_queue_t) (data : List Nat)
    (h : ∀ p, queue.messages[0]? ≠ some (some p)) :
    ∃ f, pop_queue fuel queue data = .fault f (queue, data) := by
  unfold pop_queue
  split
  · exact ⟨_, rfl⟩
  · exact ⟨_, rfl⟩
  · rename_i top htop
    exact absurd htop (h top)

theorem add_message_oversized (queue : message_queue_t) (new_message id command priority
    error_code data_size : Nat) (data : List Nat) (h : data_size > MSG_SIZE) :
    add_message queue new_message id command priority error_code data_size data
      = .ret 255 queue := by
  unfold add_message
  simp only
  rw [if_pos h]

/-- The budget `parent_index + 2` of the sift-up loop is never the reason the loop stops:
`parent_index` is halved at each iteration, and once it equals `curr_index` the loop condition
compares a slot with itself. -/
theorem add_message_loop_fuel (new_message : message_ptr) :
    ∀ (fuel : Nat) (messages : List (Option message_ptr)) (curr_index parent_index : Nat),
      (curr_index = parent_index → 1 ≤ fuel) →
      (curr_index ≠ parent_index → parent_index + 2 ≤ fuel) →
      ∀ s, add_message_loop fuel messages new_message curr_index parent_index ≠ .timeout s := by
  intro fuel
  induction fuel with
  | zero =>
    intro messages c p h1 h2
    by_cases h : c = p
    · have := h1 h; omega
    · have := h2 h; omega
  | succ f ih =>
    intro messages c p h1 h2 s
    unfold add_message_loop
    split
    · intro h; cases h
    · intro h; cases h
    · rename_i curr hcurr
      split
      · intro h; cases h
      · intro h; cases h
      · rename_i parent_message hparent
        by_cases hlt : curr.obj.priority < parent_message.obj.priority
        · rw [if_pos hlt]
          have hne : c ≠ p := by
            intro h
            rw [h, hparent] at hcurr
            cases hcurr
            exact Nat.lt_irrefl _ hlt
          have := h2 hne
          exact ih _ p (p / 2) (by intro _; omega) (by intro _; omega) s
        · rw [if_neg hlt]
          intro h; cases h

/-! ## C1: `peek_queue` and the minimum -/

/-- Within the range of the 32-bit slot index: for every capacity `n` whose slot array can be
allocated and every sequence of `k` calls that `add_message` can serve, with `1 ≤ k ≤ n` and
`k ≤ 2 ^ 32`, all calls on `create_queue n` return 0, and then `peek_queue` returns the record
of slot 0, whose priority is at most the priority of the record in every slot of `[0, k)`. -/
theorem peek_queue_minimum (n : Nat) (calls : List add_call) (hn : n * 8 < 2 ^ 64)
    (h32 : calls.length ≤ 2 ^ 32)
    (hk1 : 1 ≤ calls.length) (hk : calls.length ≤ n) (hvalid : ∀ c ∈ calls, c.valid) :
    ∃ queue top, add_messages (create_queue n) calls = some queue
      ∧ queue.last_element = calls.length
      ∧ peek_queue queue = .ret (some top) queue
      ∧ queue.messages[0]? = some (some top)
      ∧ ∀ i, i < calls.length →
          ∃ r, queue.messages[i]? = some (some r) ∧ top.obj.priority ≤ r.obj.priority := by
  have hmsgs := create_queue_messages n hn
  obtain ⟨q, hrun, _, _, hlast, hlive, hord, _⟩ :=
    add_messages_ok calls (create_queue n) hvalid
      (by
        rw [hmsgs, List.length_replicate]
        show 0 + calls.length ≤ n
        omega)
      (by show 0 + calls.length ≤ 2 ^ 32; omega)
      (live_zero _) (fun i _ hi => absurd hi (Nat.not_lt_zero i))
  have hlast0 : q.last_element = calls.length := by
    rw [hlast]
    show 0 + calls.length = calls.length
    omega
  obtain ⟨top, htop⟩ := hlive 0 (by omega)
  refine ⟨q, top, hrun, hlast0, ?_, htop, ?_⟩
  · simp [peek_queue, htop]
  · intro i hi
    obtain ⟨r, hr⟩ := hlive i (by omega)
    refine ⟨r, hr, ?_⟩
    have := prio_root_le q.messages q.last_element hord i (by omega)
    rwa [prio_of_get htop, prio_of_get hr] at this

/-- Witness for `peek_queue_minimum`: scenario 1 of the specification on capacity 4. -/
theorem peek_queue_minimum_witness :
    ∃ queue top, add_messages (create_queue 4) scenario_calls = some queue
      ∧ queue.last_element = scenario_calls.length
      ∧ peek_queue queue = .ret (some top) queue
      ∧ queue.messages[0]? = some (some top)
      ∧ ∀ i, i < scenario_calls.length →
          ∃ r, queue.messages[i]? = some (some r) ∧ top.obj.priority ≤ r.obj.priority :=
  peek_queue_minimum 4 scenario_calls (by decide) (by decide) (by decide) (by decide)
    (by decide)


theorem add_messages_append :
    ∀ (xs ys : List add_call) (queue : message_queue_t),
      add_messages queue (xs ++ ys)
        = (add_messages queue xs).bind (fun queue1 => add_messages queue1 ys) := by
  intro xs
  induction xs with
  | nil => intro ys queue; rfl
  | cons c cs ih =>
    intro ys queue
    simp only [List.cons_append, add_messages]
    split
    · exact ih ys _
    · rfl

theorem add_message_flat (P : Nat) (queue : message_queue_t) (c : add_call) (hc : c.valid)
    (hP : c.priority = P) (hlen : queue.last_element < queue.messages.length)
    (h32 : queue.last_element < 2 ^ 32) (hflat : flat P queue.messages queue.last_element) :
    ∃ queue1, add_call.run queue c = .ret 0 queue1
      ∧ queue1.messages.length = queue.messages.length
      ∧ queue1.last_element = queue.last_element + 1
      ∧ flat P queue1.messages (queue.last_element + 1) := by
  have hm1 : queue.last_element % 2 ^ 32 = queue.last_element := Nat.mod_eq_of_lt h32
  have hm2 : (queue.last_element / 2) % 2 ^ 32 = queue.last_element / 2 :=
    Nat.mod_eq_of_lt (by omega)
  have hm3 : (queue.last_element + 1) % 2 ^ 64 = queue.last_element + 1 :=
    Nat.mod_eq_of_lt (by omega)
  unfold add_call.run
  rw [add_message_eq queue c.new_message c.id c.command c.priority c.error_code c.data_size
    c.data hc.2.1 hc.1 hc.2.2 (by omega), hm1, hm2, hm3]
  have hrp : (new_record c.new_message c.id c.command c.priority c.error_code c.data_size
      c.data).obj.priority = P := hP
  generalize new_record c.new_message c.id c.command c.priority c.error_code c.data_size
    c.data = record at hrp
  have hslot : (queue.messages.set queue.last_element (some record))[queue.last_element]?
      = some (some record) := by simp [hlen]
  have hflat0 : flat P (queue.messages.set queue.last_element (some record))
      (queue.last_element + 1) := by
    intro i hi
    by_cases h : i = queue.last_element
    · exact ⟨record, by rw [h]; exact hslot, hrp⟩
    · obtain ⟨p, hp, hpp⟩ := hflat i (by omega)
      exact ⟨p, by rw [List.getElem?_set_ne (Ne.symm h)]; exact hp, hpp⟩
  obtain ⟨pm, hpm, hpmP⟩ := hflat0 (queue.last_element / 2) (by omega)
  rw [show queue.last_element / 2 + 2 = (queue.last_element / 2 + 1) + 1 from rfl,
    add_message_loop_step _ _ record record pm _ _ hslot hpm, if_neg (by omega)]
  exact ⟨_, rfl, by simp, rfl, hflat0⟩

theorem add_messages_flat (P : Nat) :
    ∀ (calls : List add_call) (queue : message_queue_t),
      (∀ c ∈ calls, c.valid ∧ c.priority = P) →
      queue.last_element + calls.length ≤ queue.messages.length →
      queue.last_element + calls.length ≤ 2 ^ 32 →
      flat P queue.messages queue.last_element →
      ∃ queue1, add_messages queue calls = some queue1
        ∧ queue1.messages.length = queue.messages.length
        ∧ queue1.last_element = queue.last_element + calls.length
        ∧ flat P queue1.messages queue1.last_element := by
  intro calls
  induction calls with
  | nil =>
    intro queue _ _ _ hflat
    exact ⟨queue, rfl, rfl, rfl, hflat⟩
  | cons c cs ih =>
    intro queue hall hlen h32 hflat
    have hc := hall c (List.mem_cons_self _ _)
    simp only [List.length_cons] at hlen h32
    obtain ⟨q1, hrun, hlen1, hlast1, hflat1⟩ :=
      add_message_flat P queue c hc.1 hc.2 (by omega) (by omega) hflat
    rw [← hlast1] at hflat1
    obtain ⟨q2, hrun2, hlen2, hlast2, hflat2⟩ :=
      ih q1 (fun d hd => hall d (List.mem_cons_of_mem _ hd)) (by omega) (by omega) hflat1
    refine ⟨q2, ?_, by omega, ?_, hflat2⟩
    · simp only [add_messages, hrun]
      exact hrun2
    · simp only [List.length_cons]; omega

/-- An `add_message` at `last_element = 2 ^ 32`: the 32-bit `curr_index` is 0, so the record
goes to slot 0 and replaces the one stored there. -/
theorem add_message_wrap (queue : message_queue_t) (c : add_call) (hc : c.valid)
    (hP : c.priority = 9) (hlast : queue.last_element = 2 ^ 32)
    (hflat : flat 5 queue.messages (2 ^ 32)) :
    add_call.run queue c = .ret 0
      { queue with
        messages := queue.messages.set 0
          (some (new_record c.new_message c.id c.command c.priority c.error_code c.data_size
            c.data))
        last_element := 2 ^ 32 + 1 } := by
  obtain ⟨p0, hp0, _⟩ := hflat 0 (by norm_num)
  obtain ⟨pm, hpm, hpmP⟩ := hflat (2 ^ 31) (by norm_num)
  have hlen : 0 < queue.messages.length := by
    by_contra hge
    rw [List.getElem?_eq_none (by omega)] at hp0
    cases hp0
  have hm1 : queue.last_element % 2 ^ 32 = 0 := by rw [hlast]; norm_num
  have hm2 : (queue.last_element / 2) % 2 ^ 32 = 2 ^ 31 := by rw [hlast]; norm_num
  have hm3 : (queue.last_element + 1) % 2 ^ 64 = 2 ^ 32 + 1 := by rw [hlast]; norm_num
  unfold add_call.run
  rw [add_message_eq queue c.new_message c.id c.command c.priority c.error_code c.data_size
    c.data hc.2.1 hc.1 hc.2.2 (by omega), hm1, hm2, hm3]
  have hrp : (new_record c.new_message c.id c.command c.priority c.error_code c.data_size
      c.data).obj.priority = 9 := hP
  generalize new_record c.new_message c.id c.command c.priority c.error_code c.data_size
    c.data = record at hrp
  have hslot : (queue.messages.set 0 (some record))[0]? = some (some record) := by
    simp [hlen]
  have hpar : (queue.messages.set 0 (some record))[2 ^ 31]? = some (some pm) := by
    rw [List.getElem?_set_ne (by norm_num)]; exact hpm
  rw [show (2 : Nat) ^ 31 + 2 = (2 ^ 31 + 1) + 1 from rfl,
    add_message_loop_step _ _ record record pm _ _ hslot hpar, if_neg (by omega)]

theorem flat_call_valid (i : Nat) : (flat_call i).valid ∧ (flat_call i).priority = 5 := by
  refine ⟨⟨?_, ?_, ?_⟩, rfl⟩
  · show 4096 * (i + 1) ≠ 0
    omega
  · show 0 ≤ MSG_SIZE
    exact Nat.zero_le _
  · exact Nat.zero_le _

theorem create_queue_wide :
    (create_queue wide_capacity).messages.length = 2 ^ 32 + 1
      ∧ (create_queue wide_capacity).last_element = 0 := by
  have hw : wide_capacity = 2 ^ 32 + 1 := rfl
  constructor
  · rw [create_queue_messages wide_capacity (by rw [hw]; norm_num), List.length_replicate, hw]
  · rfl

/-- Claim C1, the code at the failing input: on a queue of capacity `2 ^ 32 + 1`, after
`2 ^ 32` successful calls of priority 5 and one more of priority 9 (all within capacity), the
record `peek_queue` returns has priority 9 while slot 1 holds a record of priority 5: the
`uint32_t curr_index` of line 64 truncated `last_element = 2 ^ 32` to 0 and the last call
overwrote slot 0. -/
theorem peek_queue_not_minimum_wide :
    1 ≤ wide_capacity ∧ 1 ≤ wide_calls.length ∧ wide_calls.length ≤ wide_capacity
      ∧ (∀ c ∈ wide_calls, c.valid)
      ∧ ∃ queue top r, add_messages (create_queue wide_capacity) wide_calls = some queue
          ∧ peek_queue queue = .ret (some top) queue
          ∧ queue.messages[1]? = some (some r)
          ∧ r.obj.priority < top.obj.priority := by
  have hlen : wide_calls.length = 2 ^ 32 + 1 := by
    unfold wide_calls
    rw [List.length_append, List.length_map, List.length_range]
    rfl
  have hlast : wide_last_call.valid :=
    ⟨by show 4096 * (2 ^ 32 + 1) ≠ 0; norm_num, Nat.zero_le _, Nat.zero_le _⟩
  refine ⟨by unfold wide_capacity; norm_num, by rw [hlen]; norm_num,
    by rw [hlen]; exact Nat.le_refl _, ?_, ?_⟩
  · intro c hc
    unfold wide_calls at hc
    rcases List.mem_append.1 hc with h | h
    · obtain ⟨i, _, rfl⟩ := List.mem_map.1 h
      exact (flat_call_valid i).1
    · rw [List.mem_singleton] at h
      rw [h]
      exact hlast
  · obtain ⟨hcl, hc0⟩ := create_queue_wide
    obtain ⟨q1, hrun1, hlen1, hlast1, hflat1⟩ :=
      add_messages_flat 5 ((List.range (2 ^ 32)).map flat_call) (create_queue wide_capacity)
        (by
          intro c hc
          obtain ⟨i, _, rfl⟩ := List.mem_map.1 hc
          exact flat_call_valid i)
        (by rw [hc0, hcl, List.length_map, List.length_range]; omega)
        (by rw [hc0, List.length_map, List.length_range]; omega)
        (by rw [hc0]; exact fun i hi => absurd hi (Nat.not_lt_zero i))
    rw [hc0, List.length_map, List.length_range, Nat.zero_add] at hlast1
    rw [hlast1] at hflat1
    have hwrap := add_message_wrap q1 wide_last_call hlast rfl hlast1 hflat1
    obtain ⟨r, hr, hrP⟩ := hflat1 1 (by norm_num)
    refine ⟨{ q1 with
        messages := q1.messages.set 0
          (some (new_record wide_last_call.new_message wide_last_call.id wide_last_call.command
            wide_last_call.priority wide_last_call.error_code wide_last_call.data_size
            wide_last_call.data))
        last_element := 2 ^ 32 + 1 },
      new_record wide_last_call.new_message wide_last_call.id wide_last_call.command
        wide_last_call.priority wide_last_call.error_code wide_last_call.data_size
        wide_last_call.data, r, ?_, ?_, ?_, ?_⟩
    · unfold wide_calls
      rw [add_messages_append, hrun1]
      show add_messages q1 [_] = _
      unfold add_messages
      rw [hwrap]
      rfl
    · have h0 : 0 < q1.messages.length := by rw [hlen1, hcl]; omega
      simp [peek_queue, h0]
    · show (q1.messages.set 0 _)[1]? = _
      rw [List.getElem?_set_ne (by norm_num)]
      exact hr
    · rw [hrP]
      show 5 < 9
      norm_num

/-! ## C2-C4, C6-C8: the code at the inputs where it departs from the specification -/

/-- Claim C2, the code at the failing input: five successful calls with priorities
1, 6, 8, 4, 2 on `create_queue 5`; three `pop_queue` calls return and remove records of
priority 1, 8, 6 in this order (8 before 6), two records are left, and the fourth call never
returns, so the queue is never emptied. -/
theorem pop_queue_unsorted :
    ∃ q0 q1 q2 q3, add_messages (create_queue 5) unsorted_calls = some q0
      ∧ (∀ fuel, pop_queue (fuel + 1) q0 [] = .ret () (q1, []))
      ∧ (∀ fuel, pop_queue (fuel + 1) q1 [] = .ret () (q2, []))
      ∧ (∀ fuel, pop_queue (fuel + 1) q2 [] = .ret () (q3, []))
      ∧ priority_at q0.messages 0 = some 1
      ∧ priority_at q1.messages 0 = some 8
      ∧ priority_at q2.messages 0 = some 6
      ∧ q3.last_element = 2
      ∧ ∀ fuel, ∃ s, pop_queue fuel q3 [] = .timeout s := by
  refine ⟨_, _, _, _, rfl, fun _ => rfl, fun _ => rfl, fun _ => rfl, rfl, rfl, rfl, rfl, ?_⟩
  intro fuel
  exact ⟨_, pop_queue_timeout _ [] (new_record 16384 0 0 4 0 0 [])
    (some (new_record 20480 0 0 2 0 0 [])) (some (new_record 20480 0 0 2 0 0 []))
    (by rfl) (by decide) (by decide) (by rfl) (by rfl) (Or.inr ⟨none, by rfl, by decide⟩) fuel⟩

/-- Claim C3, the code at the failing input: after seven successful calls with priorities
0, 1, 5, 2, 5, 5, 3 on `create_queue 7`, slot 2 = `(6 - 1) / 2` holds priority 5 and slot 6
holds priority 3, so the heap property with `parent(i) = (i - 1) / 2` fails. -/
theorem add_message_breaks_heap_property :
    ∃ queue, add_messages (create_queue 7) skewed_calls = some queue
      ∧ queue.last_element = 7
      ∧ priority_at queue.messages 2 = some 5
      ∧ priority_at queue.messages 6 = some 3
      ∧ ¬ heap_property queue.messages queue.last_element := by
  refine ⟨_, rfl, rfl, rfl, rfl, ?_⟩
  decide

/-- Claim C4, the code at the failing input: the queue built by four successful calls with
priorities 1, 6, 7, 5 satisfies the heap property over its 4 live slots; `pop_queue` returns,
leaving 3 live slots with priorities 6, 5, 7, which violate it. -/
theorem pop_queue_breaks_heap_property :
    ∃ queue queue1, add_messages (create_queue 4) sunk_calls = some queue
      ∧ 1 ≤ queue.last_element
      ∧ heap_property queue.messages queue.last_element
      ∧ (∀ fuel, pop_queue (fuel + 1) queue [] = .ret () (queue1, []))
      ∧ queue1.last_element = 3
      ∧ List.map (priority_at queue1.messages) [0, 1, 2] = [some 6, some 5, some 7]
      ∧ ¬ heap_property queue1.messages queue1.last_element := by
  refine ⟨_, _, rfl, by decide, by decide, fun _ => rfl, rfl, rfl, ?_⟩
  decide

/-- Claim C6, the code at the failing input: on every freshly created queue with at least
one slot (the slot array allocated), `peek_queue` returns `NULL` (the queue unchanged) and
`pop_queue` dereferences the null slot 0 in its `memcpy`: a null dereference, not an
empty-queue error. -/
theorem pop_queue_empty_null_deref (n fuel : Nat) (data : List Nat)
    (hn : (n + 1) * 8 < 2 ^ 64) :
    peek_queue (create_queue (n + 1)) = .ret none (create_queue (n + 1))
      ∧ pop_queue fuel (create_queue (n + 1)) data
          = .fault .null_deref (create_queue (n + 1), data) := by
  have hslot : (create_queue (n + 1)).messages[0]? = some none := by
    rw [create_queue_messages (n + 1) hn, List.replicate_succ, List.getElem?_cons_zero]
  constructor
  · unfold peek_queue
    rw [hslot]
  · unfold pop_queue
    rw [hslot]

/-- Witness for `pop_queue_empty_null_deref`: `create_queue 1` and the 1024-byte buffer of
`main`. -/
theorem pop_queue_empty_null_deref_witness :
    (0 + 1) * 8 < 2 ^ 64
      ∧ peek_queue (create_queue (0 + 1)) = .ret none (create_queue (0 + 1))
      ∧ pop_queue 1 (create_queue (0 + 1)) main_buffer
          = .fault .null_deref (create_queue (0 + 1), main_buffer) :=
  ⟨by decide, pop_queue_empty_null_deref 0 1 main_buffer (by decide)⟩

/-- Claim C7, the code at the failing input: after the two `add_message` calls of `main` on
`create_queue 100`, the bubble-down loop of `pop_queue` is still running after any number of
iterations (line 157 of `main` never returns). -/
theorem pop_queue_main_never_returns :
    ∃ queue, add_messages (create_queue 100) main_calls = some queue
      ∧ 1 ≤ queue.last_element
      ∧ ∀ fuel, ∃ s, pop_queue fuel queue main_buffer = .timeout s := by
  refine ⟨_, rfl, by decide, ?_⟩
  intro fuel
  exact ⟨_, pop_queue_timeout _ main_buffer (new_record 8192 0 1 0 0 4 [116, 101, 115, 116, 0])
    (some (new_record 4096 0 1 1 0 5 [104, 101, 108, 108, 111, 0]))
    (some (new_record 4096 0 1 1 0 5 [104, 101, 108, 108, 111, 0]))
    (by rfl) (by rw [new_record_data_length _ _ _ _ _ _ _ (by decide) (by decide)]; decide)
    (by rw [main_buffer_length]; decide) (by rfl) (by rfl)
    (Or.inr ⟨none, by rfl, by decide⟩) fuel⟩

/-- Claim C8, the code at the failing input: scenario 2 of the specification.  Two calls fill
`create_queue 2`; the third call stores at `messages[2]`, outside the two allocated slots:
no growth takes place. -/
theorem add_message_full_out_of_bounds :
    ∃ queue, add_messages (create_queue 2) [plain_call 4096 2, plain_call 8192 1] = some queue
      ∧ queue.last_element = queue.queue_size
      ∧ queue.messages.length = 2
      ∧ add_call.run queue (plain_call 12288 3) = .fault .out_of_bounds queue :=
  ⟨_, rfl, rfl, rfl, rfl⟩

/-! ## C5, C9, C10 -/

/-- Claim C5: for every queue state and every `add_message` call with
`data_size > MSG_SIZE`, the call returns 255 (non-zero) and the queue (`messages`,
`queue_size`, `last_element`) is exactly as before. -/
theorem add_message_too_large (queue : message_queue_t) (new_message id command priority
    error_code data_size : Nat) (data : List Nat) (h : data_size > MSG_SIZE) :
    add_message queue new_message id command priority error_code data_size data
      = .ret 255 queue :=
  add_message_oversized queue new_message id command priority error_code data_size data h

/-- Witness for `add_message_too_large`: scenario 3 of the specification, a payload of
`MSG_SIZE + 1` bytes on `create_queue 1`. -/
theorem add_message_too_large_witness :
    1025 > MSG_SIZE
      ∧ add_message (create_queue 1) 4096 7 1 3 0 1025 (List.replicate 1025 65)
          = .ret 255 (create_queue 1) :=
  ⟨by decide, add_message_too_large (create_queue 1) 4096 7 1 3 0 1025 (List.replicate 1025 65)
    (by decide)⟩

/-- Claim C9: count conservation.  (1) With `data_size ≤ MSG_SIZE` and
`last_element < queue_size`, every `add_message` call that returns has returned 0 and
increased `last_element` by exactly 1, and on a queue whose slots below `last_element` all
hold records such a call does return.  (2) Every `pop_queue` call that returns on a queue
with `last_element ≥ 1` has decreased `last_element` by exactly 1.  (3) An oversized
`add_message` returns a non-zero value and leaves `last_element` unchanged.  (4) `peek_queue`
leaves `last_element` unchanged.  (5) `pop_queue` on an empty queue (no record in slot 0)
stops at its first access with the queue, `last_element` included, unchanged. -/
theorem last_element_conservation :
    (∀ (queue : message_queue_t) (new_message id command priority error_code data_size : Nat)
        (data : List Nat),
        data_size ≤ MSG_SIZE → queue.last_element < queue.queue_size →
        queue.queue_size < 2 ^ 64 →
        (∀ r queue1,
          add_message queue new_message id command priority error_code data_size data
            = .ret r queue1 →
          r = 0 ∧ queue1.last_element = queue.last_element + 1)
        ∧ (new_message ≠ 0 → data_size ≤ data.length →
            queue.messages.length = queue.queue_size →
            live queue.messages queue.last_element →
            ∃ queue1,
              add_message queue new_message id command priority error_code data_size data
                = .ret 0 queue1
              ∧ queue1.last_element = queue.last_element + 1))
      ∧ (∀ (fuel : Nat) (queue : message_queue_t) (data : List Nat)
          (s : message_queue_t × List Nat),
          1 ≤ queue.last_element → queue.last_element < 2 ^ 64 →
          pop_queue fuel queue data = .ret () s →
          s.1.last_element + 1 = queue.last_element)
      ∧ (∀ (queue : message_queue_t) (new_message id command priority error_code
          data_size : Nat) (data : List Nat),
          data_size > MSG_SIZE →
          ∃ r queue1,
            add_message queue new_message id command priority error_code data_size data
              = .ret r queue1
            ∧ r ≠ 0 ∧ queue1.last_element = queue.last_element)
      ∧ (∀ queue : message_queue_t, (peek_queue queue).state.last_element = queue.last_element)
      ∧ (∀ (fuel : Nat) (queue : message_queue_t) (data : List Nat),
          queue.last_element = 0 → (∀ p, queue.messages[0]? ≠ some (some p)) →
          ∃ f, pop_queue fuel queue data = .fault f (queue, data)) := by
  refine ⟨?_, ?_, ?_, ?_, ?_⟩
  · intro queue new_message id command priority error_code data_size data hsize hlt hq
    have hm : (queue.last_element + 1) % 2 ^ 64 = queue.last_element + 1 :=
      Nat.mod_eq_of_lt (by omega)
    constructor
    · intro r queue1 h
      obtain ⟨hr, hl, _⟩ := add_message_ret_inv queue queue1 new_message id command priority
        error_code data_size r data hsize h
      exact ⟨hr, by rw [hl, hm]⟩
    · intro hnew hdata hlen hlive
      obtain ⟨q1, hrun, _, _, hl⟩ := add_message_returns queue new_message id command priority
        error_code data_size data hsize hnew hdata (by omega) hlive
      exact ⟨q1, hrun, by rw [hl, hm]⟩
  · intro fuel queue data s h1 h64 h
    obtain ⟨hl, _⟩ := pop_queue_ret_inv fuel queue data s h
    rw [hl]
    omega
  · intro queue new_message id command priority error_code data_size data h
    exact ⟨255, queue, add_message_oversized queue new_message id command priority error_code
      data_size data h, by decide, rfl⟩
  · intro queue
    unfold peek_queue
    split <;> rfl
  · intro fuel queue data _ h
    exact pop_queue_no_record fuel queue data h

/-- Witness for `last_element_conservation`: an `add_message` on `create_queue 1`, a returning
`pop_queue` on the four-record `sunk_queue`, an oversized `add_message`, and `peek_queue` and
`pop_queue` on the empty `create_queue 1`. -/
theorem last_element_conservation_witness :
    (∃ queue1, add_message (create_queue 1) 4096 7 1 3 0 4 test_payload = .ret 0 queue1
        ∧ queue1.last_element = (create_queue 1).last_element + 1)
      ∧ (pop_queue 1 sunk_queue []).state.1.last_element + 1 = sunk_queue.last_element
      ∧ (∃ r queue1, add_message (create_queue 1) 4096 7 1 3 0 1025 (List.replicate 1025 65)
          = .ret r queue1 ∧ r ≠ 0 ∧ queue1.last_element = (create_queue 1).last_element)
      ∧ (peek_queue (create_queue 1)).state.last_element = (create_queue 1).last_element
      ∧ ∃ f, pop_queue 1 (create_queue 1) [] = .fault f (create_queue 1, []) :=
  ⟨(last_element_conservation.1 (create_queue 1) 4096 7 1 3 0 4 test_payload (by decide)
      (by decide) (by decide)).2 (by decide) (by decide) rfl (by intro i hi; cases hi),
    last_element_conservation.2.1 1 sunk_queue [] (pop_queue 1 sunk_queue []).state
      (by decide) (by decide) rfl,
    last_element_conservation.2.2.1 (create_queue 1) 4096 7 1 3 0 1025 (List.replicate 1025 65)
      (by decide),
    last_element_conservation.2.2.2.1 (create_queue 1),
    last_element_conservation.2.2.2.2 1 (create_queue 1) [] rfl (by intro p h; cases h)⟩

theorem add_message_empty (queue : message_queue_t) (new_message id command priority error_code
    data_size : Nat) (data : List Nat) (hsize : data_size ≤ MSG_SIZE) (hnew : new_message ≠ 0)
    (hdata : data_size ≤ data.length) (hempty : queue.last_element = 0)
    (hcap : 0 < queue.messages.length) :
    add_message queue new_message id command priority error_code data_size data
      = .ret 0
        { queue with
          messages := queue.messages.set 0
            (some (new_record new_message id command priority error_code data_size data))
          last_element := 1 } := by
  have hm1 : queue.last_element % 2 ^ 32 = 0 := by rw [hempty]; norm_num
  have hm2 : (queue.last_element / 2) % 2 ^ 32 = 0 := by rw [hempty]; norm_num
  have hm3 : (queue.last_element + 1) % 2 ^ 64 = 1 := by rw [hempty]; norm_num
  rw [add_message_eq queue new_message id command priority error_code data_size data hsize hnew
    hdata (by omega), hm1, hm2, hm3]
  generalize new_record new_message id command priority error_code data_size data = record
  have hslot : (queue.messages.set 0 (some record))[0]? = some (some record) :=
    List.getElem?_set_self hcap
  rw [show 0 + 2 = 1 + 1 from rfl,
    add_message_loop_step _ _ record record record _ _ hslot hslot,
    if_neg (Nat.lt_irrefl _)]

/-- The copies of the round trip.  For every byte sequence `p` with `|p| ≤ MSG_SIZE`, all
metadata values, every empty queue with at least one slot, a successful allocation and an
output buffer of at least `|p|` bytes: `add_message` of `p` returns 0, `peek_queue` then
returns a record with `data_size = |p|`, `data[0..|p|) = p` and the supplied `id`, `command`,
`priority`, `error_code`, and the `memcpy` of `pop_queue` has put exactly the bytes `p` into
the first `|p|` bytes of the output buffer in the state its execution stops in.  Whether
`pop_queue` returns is not stated here. -/
theorem payload_round_trip (queue : message_queue_t) (new_message id command priority
    error_code : Nat) (p out : List Nat) (hp : p.length ≤ MSG_SIZE) (hnew : new_message ≠ 0)
    (hempty : queue.last_element = 0) (hcap : 0 < queue.messages.length)
    (hout : p.length ≤ out.length) :
    ∃ queue1 r, add_message queue new_message id command priority error_code p.length p
        = .ret 0 queue1
      ∧ peek_queue queue1 = .ret (some r) queue1
      ∧ r.obj.data_size = p.length ∧ r.obj.data.take p.length = p
      ∧ r.obj.id = id ∧ r.obj.command = command ∧ r.obj.priority = priority
      ∧ r.obj.error_code = error_code
      ∧ ∀ fuel, (pop_queue fuel queue1 out).state.2 = p ++ out.drop p.length := by
  have hslot : (queue.messages.set 0
      (some (new_record new_message id command priority error_code p.length p)))[0]?
      = some (some (new_record new_message id command priority error_code p.length p)) :=
    List.getElem?_set_self hcap
  have htake : (new_record new_message id command priority error_code p.length p).obj.data.take
      p.length = p := by
    show (p.take p.length ++ List.replicate (MSG_SIZE - p.length) 0).take p.length = p
    rw [List.take_length, List.take_left']
    rfl
  refine ⟨_, new_record new_message id command priority error_code p.length p,
    add_message_empty queue new_message id command priority error_code p.length p hp hnew
      (Nat.le_refl _) hempty hcap, ?_, rfl, htake, rfl, rfl, rfl, rfl, ?_⟩
  · unfold peek_queue
    simp only [hslot]
  · intro fuel
    have hb := pop_queue_buffer fuel
      { queue with
        messages := queue.messages.set 0
          (some (new_record new_message id command priority error_code p.length p))
        last_element := 1 } out
      (new_record new_message id command priority error_code p.length p) hslot
      (by
        rw [new_record_data_length _ _ _ _ _ _ _ hp (Nat.le_refl _)]
        exact hp)
      hout
    rw [hb]
    show (new_record new_message id command priority error_code p.length p).obj.data.take
      p.length ++ _ = _
    rw [htake]
    rfl

/-- Witness for `payload_round_trip`: the payload "test" added to `create_queue 1` and popped
into the 1024-byte buffer of `main`. -/
theorem payload_round_trip_witness :
    ∃ queue1 r, add_message (create_queue 1) 8192 7 1 3 0 test_payload.length test_payload
        = .ret 0 queue1
      ∧ peek_queue queue1 = .ret (some r) queue1
      ∧ r.obj.data_size = test_payload.length ∧ r.obj.data.take test_payload.length = test_payload
      ∧ r.obj.id = 7 ∧ r.obj.command = 1 ∧ r.obj.priority = 3
      ∧ r.obj.error_code = 0
      ∧ ∀ fuel, (pop_queue fuel queue1 main_buffer).state.2
          = test_payload ++ main_buffer.drop test_payload.length :=
  payload_round_trip (create_queue 1) 8192 7 1 3 0 test_payload main_buffer (by decide)
    (by decide) rfl (by decide) (by rw [main_buffer_length]; decide)

/-- Claim C10, the code at the failing input: the payload "test" added to an empty queue of
capacity 1 and of capacity 4, then popped into the 1024-byte buffer of `main`.  Both
`add_message` calls return 0, but `pop_queue` never returns: with capacity 1 its loop reads
`messages[1]` outside the allocation, with capacity 4 the loop condition
`messages[0] > messages[1]` compares the record with the `NULL` slot 1 and stays true for
every budget.  The caller never gets the payload back. -/
theorem pop_queue_after_add_never_returns :
    ∃ q1 q4, add_message (create_queue 1) 8192 7 1 3 0 4 test_payload = .ret 0 q1
      ∧ add_message (create_queue 4) 8192 7 1 3 0 4 test_payload = .ret 0 q4
      ∧ (∀ fuel s, pop_queue fuel q1 main_buffer ≠ .ret () s)
      ∧ (∀ fuel, ∃ s, pop_queue (fuel + 1) q1 main_buffer = .fault .out_of_bounds s)
      ∧ (∀ fuel s, pop_queue fuel q4 main_buffer ≠ .ret () s)
      ∧ (∀ fuel, ∃ s, pop_queue fuel q4 main_buffer = .timeout s) := by
  have h4 : ∀ fuel, ∃ s, pop_queue fuel
      { messages := [some (new_record 8192 7 1 3 0 4 test_payload), none, none, none]
        queue_size := 4, last_element := 1 } main_buffer = .timeout s := by
    intro fuel
    exact ⟨_, pop_queue_timeout _ main_buffer (new_record 8192 7 1 3 0 4 test_payload)
      (some (new_record 8192 7 1 3 0 4 test_payload)) none (by rfl)
      (by rw [new_record_data_length _ _ _ _ _ _ _ (by decide) (by decide)]; decide)
      (by rw [main_buffer_length]; decide) (by rfl) (by rfl) (Or.inl (by decide)) fuel⟩
  refine ⟨{ messages := [some (new_record 8192 7 1 3 0 4 test_payload)]
            queue_size := 1, last_element := 1 },
    { messages := [some (new_record 8192 7 1 3 0 4 test_payload), none, none, none]
      queue_size := 4, last_element := 1 }, rfl, rfl, ?_, fun _ => ⟨_, rfl⟩, ?_, h4⟩
  · intro fuel s h
    cases fuel with
    | zero => exact absurd h (by intro e; cases e)
    | succ f => exact absurd h (by intro e; cases e)
  · intro fuel s h
    obtain ⟨t, ht⟩ := h4 fuel
    rw [ht] at h
    cases h

/-! ## C12-C14: `create_queue`, termination of `add_message`, effect of `pop_queue` -/

theorem scenario_queue_live : live scenario_queue.messages scenario_queue.last_element := by
  intro i hi
  have h3 : i < 3 := hi
  interval_cases i <;> exact ⟨_, rfl⟩

theorem add_message_loop_mono (new_message : message_ptr) :
    ∀ (fuel k : Nat) (messages messages1 : List (Option message_ptr))
      (curr_index parent_index : Nat),
      add_message_loop fuel messages new_message curr_index parent_index = .ret () messages1 →
      add_message_loop (fuel + k) messages new_message curr_index parent_index
        = .ret () messages1 := by
  intro fuel
  induction fuel with
  | zero =>
    intro k messages messages1 c p h
    simp [add_message_loop] at h
  | succ f ih =>
    intro k messages messages1 c p h
    rw [show f + 1 + k = (f + k) + 1 by omega]
    unfold add_message_loop at h ⊢
    split
    · rename_i hc; rw [hc] at h; exact h
    · rename_i hc; rw [hc] at h; exact h
    · rename_i curr hc
      rw [hc] at h
      simp only at h ⊢
      split
      · rename_i hp; rw [hp] at h; exact h
      · rename_i hp; rw [hp] at h; exact h
      · rename_i pm hp
        rw [hp] at h
        simp only at h
        by_cases hlt : curr.obj.priority < pm.obj.priority
        · rw [if_pos hlt] at h ⊢
          exact ih k _ _ _ _ h
        · rw [if_neg hlt] at h ⊢
          exact h

/-- Claim C12, counterexample: `create_queue 0` does not fail; it returns a queue with
`queue_size = 0`, `last_element = 0` and no slot. -/
theorem create_queue_zero_returns :
    create_queue 0 = { messages := [], queue_size := 0, last_element := 0 } :=
  rfl

/-- Claim C12 (amended): `create_queue` rejects no capacity; for every `n`, 0 included, it
returns a queue with `queue_size = n` and `last_element = 0`. -/
theorem create_queue_spec (n : Nat) :
    (create_queue n).queue_size = n ∧ (create_queue n).last_element = 0 :=
  ⟨rfl, rfl⟩

/-- When the byte size of the slot array overflows `size_t` the allocation fails: the queue
returned has no accessible slot, with `queue_size` stored all the same. -/
theorem create_queue_no_slots (n : Nat) (hn : 2 ^ 64 ≤ n * 8) :
    (create_queue n).messages = [] ∧ (create_queue n).queue_size = n := by
  refine ⟨?_, rfl⟩
  show (if n * 8 < 2 ^ 64 then List.replicate n none else []) = []
  rw [if_neg (by omega)]

theorem create_queue_slots (n : Nat) (hn : n * 8 < 2 ^ 64) :
    (create_queue n).messages.length = n
      ∧ ∀ i, i < n → (create_queue n).messages[i]? = some none := by
  rw [create_queue_messages n hn]
  refine ⟨List.length_replicate _ _, ?_⟩
  intro i hi
  rw [List.getElem?_replicate, if_pos hi]

/-- Claim C13: for every queue whose slots `[0, last_element)` all hold records, with
`last_element < queue_size` allocated slots, and every call with `data_size ≤ MSG_SIZE`
(the record allocated, the caller's buffer holding `data_size` bytes), the sift-up loop exits
with every budget of at least `parent_index + 2` evaluations of its condition, always in the
same state, and `add_message` returns 0. -/
theorem add_message_terminates (queue : message_queue_t) (new_message id command priority
    error_code data_size : Nat) (data : List Nat) (hsize : data_size ≤ MSG_SIZE)
    (hnew : new_message ≠ 0) (hdata : data_size ≤ data.length)
    (hlt : queue.last_element < queue.queue_size)
    (hcap : queue.messages.length = queue.queue_size)
    (hlive : live queue.messages queue.last_element) :
    (∃ queue1, add_message queue new_message id command priority error_code data_size data
        = .ret 0 queue1)
      ∧ ∃ messages1, ∀ fuel, (queue.last_element / 2) % 2 ^ 32 + 2 ≤ fuel →
          add_message_loop fuel
            (queue.messages.set (queue.last_element % 2 ^ 32)
              (some (new_record new_message id command priority error_code data_size data)))
            (new_record new_message id command priority error_code data_size data)
            (queue.last_element % 2 ^ 32) ((queue.last_element / 2) % 2 ^ 32)
            = .ret () messages1 := by
  have hlen : queue.last_element < queue.messages.length := by omega
  obtain ⟨q1, hrun, _, _, _⟩ := add_message_returns queue new_message id command priority
    error_code data_size data hsize hnew hdata hlen hlive
  refine ⟨⟨q1, hrun⟩, ?_⟩
  have hcurr : queue.last_element % 2 ^ 32 < queue.messages.length :=
    Nat.lt_of_le_of_lt (Nat.mod_le _ _) hlen
  rw [add_message_eq queue new_message id command priority error_code data_size data hsize hnew
    hdata hcurr] at hrun
  split at hrun
  · rename_i u m1 hloop
    refine ⟨m1, ?_⟩
    intro fuel hfuel
    obtain ⟨k, rfl⟩ := Nat.exists_eq_add_of_le hfuel
    exact add_message_loop_mono _ _ k _ m1 _ _ hloop
  · cases hrun
  · cases hrun

/-- Witness for `add_message_terminates`: a fourth call on the queue of scenario 1. -/
theorem add_message_terminates_witness :
    (∃ queue1, add_message scenario_queue 16384 7 1 2 0 4 test_payload = .ret 0 queue1)
      ∧ ∃ messages1, ∀ fuel, (scenario_queue.last_element / 2) % 2 ^ 32 + 2 ≤ fuel →
          add_message_loop fuel
            (scenario_queue.messages.set (scenario_queue.last_element % 2 ^ 32)
              (some (new_record 16384 7 1 2 0 4 test_payload)))
            (new_record 16384 7 1 2 0 4 test_payload)
            (scenario_queue.last_element % 2 ^ 32) ((scenario_queue.last_element / 2) % 2 ^ 32)
            = .ret () messages1 :=
  add_message_terminates scenario_queue 16384 7 1 2 0 4 test_payload (by decide) (by decide)
    (by decide) (by decide) (by decide) scenario_queue_live

theorem pop_queue_ret_slots (fuel : Nat) (queue : message_queue_t) (data : List Nat)
    (s : message_queue_t × List Nat) (h1 : 1 ≤ queue.last_element)
    (h64 : queue.last_element < 2 ^ 64) (h : pop_queue fuel queue data = .ret () s) :
    ∃ last_message, queue.messages[queue.last_element - 1]? = some last_message
      ∧ s.1.messages = (queue.messages.set 0 last_message).set (queue.last_element - 1) none
      ∧ s.1.queue_size = queue.queue_size
      ∧ s.1.last_element = queue.last_element - 1
      ∧ (∀ i, i ≠ 0 → i ≠ queue.last_element - 1 → s.1.messages[i]? = queue.messages[i]?)
      ∧ (queue.last_element = 1 → s.1.messages[0]? = some none)
      ∧ (queue.last_element ≠ 1 → s.1.messages[0]? = some last_message) := by
  have hm : (queue.last_element + (2 ^ 64 - 1)) % 2 ^ 64 = queue.last_element - 1 := by omega
  unfold pop_queue at h
  split at h
  · cases h
  · cases h
  · rename_i top htop
    have hlen0 : 0 < queue.messages.length := by
      by_contra hge
      rw [List.getElem?_eq_none (by omega)] at htop
      cases htop
    split_ifs at h
    simp only [hm] at h
    split at h
    · cases h
    · rename_i last_message hlast
      have hlenc : queue.last_element - 1 < queue.messages.length := by
        by_contra hge
        rw [List.getElem?_eq_none (by omega)] at hlast
        cases hlast
      split at h
      · cases h
        refine ⟨last_message, hlast, rfl, rfl, rfl, ?_, ?_, ?_⟩
        · intro i hi0 hic
          show ((queue.messages.set 0 last_message).set (queue.last_element - 1) none)[i]? = _
          rw [List.getElem?_set_ne (Ne.symm hic), List.getElem?_set_ne (Ne.symm hi0)]
        · intro hc
          show ((queue.messages.set 0 last_message).set (queue.last_element - 1) none)[0]? = _
          rw [hc]
          exact List.getElem?_set_self (by simpa using hlen0)
        · intro hc
          show ((queue.messages.set 0 last_message).set (queue.last_element - 1) none)[0]? = _
          rw [List.getElem?_set_ne (by omega)]
          exact List.getElem?_set_self hlen0
      · cases h
      · cases h

/-- Claim C14: `pop_queue` never swaps.  For every queue with `last_element = c ≥ 1` on which
`pop_queue` returns, the resulting slots are the old slots with slot 0 replaced by the old
slot `c - 1` and then slot `c - 1` set to `NULL` (for `c = 1` slot 0 is `NULL`); every other
slot and `queue_size` are unchanged: the bubble-down loop writes to no slot. -/
theorem pop_queue_never_swaps (fuel : Nat) (queue : message_queue_t) (data : List Nat)
    (s : message_queue_t × List Nat) (h1 : 1 ≤ queue.last_element)
    (h64 : queue.last_element < 2 ^ 64) (h : pop_queue fuel queue data = .ret () s) :
    ∃ last_message, queue.messages[queue.last_element - 1]? = some last_message
      ∧ s.1.messages = (queue.messages.set 0 last_message).set (queue.last_element - 1) none
      ∧ s.1.queue_size = queue.queue_size
      ∧ s.1.last_element = queue.last_element - 1
      ∧ (∀ i, i ≠ 0 → i ≠ queue.last_element - 1 → s.1.messages[i]? = queue.messages[i]?)
      ∧ (queue.last_element = 1 → s.1.messages[0]? = some none)
      ∧ (queue.last_element ≠ 1 → s.1.messages[0]? = some last_message) :=
  pop_queue_ret_slots fuel queue data s h1 h64 h

/-- Witness for `pop_queue_never_swaps`: a returning `pop_queue` on the four-record
`sunk_queue`. -/
theorem pop_queue_never_swaps_witness :
    ∃ last_message, sunk_queue.messages[sunk_queue.last_element - 1]? = some last_message
      ∧ (pop_queue 1 sunk_queue []).state.1.messages
          = (sunk_queue.messages.set 0 last_message).set (sunk_queue.last_element - 1) none
      ∧ (pop_queue 1 sunk_queue []).state.1.queue_size = sunk_queue.queue_size
      ∧ (pop_queue 1 sunk_queue []).state.1.last_element = sunk_queue.last_element - 1
      ∧ (∀ i, i ≠ 0 → i ≠ sunk_queue.last_element - 1 →
          (pop_queue 1 sunk_queue []).state.1.messages[i]? = sunk_queue.messages[i]?)
      ∧ (sunk_queue.last_element = 1 →
          (pop_queue 1 sunk_queue []).state.1.messages[0]? = some none)
      ∧ (sunk_queue.last_element ≠ 1 →
          (pop_queue 1 sunk_queue []).state.1.messages[0]? = some last_message) :=
  pop_queue_never_swaps 1 sunk_queue [] (pop_queue 1 sunk_queue []).state (by decide)
    (by decide) rfl

/-! ## C19: the accesses of `add_message` -/

theorem add_message_loop_accesses_le (new_message : message_ptr) :
    ∀ (fuel : Nat) (messages : List (Option message_ptr)) (curr_index parent_index : Nat),
      ∀ i ∈ add_message_loop_accesses fuel messages new_message curr_index parent_index,
        i ≤ max curr_index parent_index := by
  intro fuel
  induction fuel with
  | zero =>
    intro messages c p i hi
    simp [add_message_loop_accesses] at hi
  | succ f ih =>
    intro messages c p i hi
    unfold add_message_loop_accesses at hi
    split at hi
    · simp only [List.mem_singleton] at hi; omega
    · simp only [List.mem_singleton] at hi; omega
    · split at hi
      · simp only [List.mem_cons, List.mem_singleton, List.not_mem_nil, or_false] at hi; omega
      · simp only [List.mem_cons, List.mem_singleton, List.not_mem_nil, or_false] at hi; omega
      · split_ifs at hi
        · simp only [List.mem_cons] at hi
          rcases hi with h | h | h | h | h | h
          · omega
          · omega
          · omega
          · omega
          · omega
          · have := ih _ p (p / 2) i h
            omega
        · simp only [List.mem_cons, List.mem_singleton, List.not_mem_nil, or_false] at hi; omega

/-- Claim C19: for every queue with all slots `[0, c)` live, `c = last_element < queue_size`
allocated slots, and every call with `data_size ≤ MSG_SIZE` (the record allocated, the
caller's buffer holding `data_size` bytes), `add_message` returns 0 without a fault, so every
access was inside the allocation and every slot whose priority was read held a record, and
every slot index it reads or writes is `≤ c < queue_size`. -/
theorem add_message_access_safe (queue : message_queue_t) (new_message id command priority
    error_code data_size : Nat) (data : List Nat) (hsize : data_size ≤ MSG_SIZE)
    (hnew : new_message ≠ 0) (hdata : data_size ≤ data.length)
    (hlt : queue.last_element < queue.queue_size)
    (hcap : queue.messages.length = queue.queue_size)
    (hlive : live queue.messages queue.last_element) :
    (∃ queue1, add_message queue new_message id command priority error_code data_size data
        = .ret 0 queue1)
      ∧ ∀ i ∈ add_message_accesses queue new_message id command priority error_code data_size
          data, i ≤ queue.last_element ∧ i < queue.queue_size := by
  have hlen : queue.last_element < queue.messages.length := by omega
  obtain ⟨q1, hrun, _, _, _⟩ := add_message_returns queue new_message id command priority
    error_code data_size data hsize hnew hdata hlen hlive
  refine ⟨⟨q1, hrun⟩, ?_⟩
  intro i hi
  have hcurr : queue.last_element % 2 ^ 32 ≤ queue.last_element := Nat.mod_le _ _
  have hpar : (queue.last_element / 2) % 2 ^ 32 ≤ queue.last_element :=
    Nat.le_trans (Nat.mod_le _ _) (Nat.div_le_self _ _)
  unfold add_message_accesses at hi
  simp only at hi
  rw [if_neg (by omega), if_neg hnew, if_neg (by omega), if_pos (by omega)] at hi
  rcases List.mem_cons.1 hi with h | h
  · omega
  · have := add_message_loop_accesses_le _ _ _ _ _ i h
    omega

/-- Witness for `add_message_access_safe`: a fourth call on the queue of scenario 1. -/
theorem add_message_access_safe_witness :
    (∃ queue1, add_message scenario_queue 16384 7 1 2 0 4 test_payload = .ret 0 queue1)
      ∧ ∀ i ∈ add_message_accesses scenario_queue 16384 7 1 2 0 4 test_payload,
          i ≤ scenario_queue.last_element ∧ i < scenario_queue.queue_size :=
  add_message_access_safe scenario_queue 16384 7 1 2 0 4 test_payload (by decide) (by decide)
    (by decide) (by decide) (by decide) scenario_queue_live

/-! ## C17, C18: order and content of the slots after `add_message` -/

theorem slot_le_iff {messages : List (Option message_ptr)} {i j : Nat} {a b : message_ptr}
    (hi : messages[i]? = some (some a)) (hj : messages[j]? = some (some b)) :
    slot_le messages i j = true ↔ a.obj.priority ≤ b.obj.priority := by
  simp [slot_le, priority_at, hi, hj]

theorem halving_order_iff_prio (messages : List (Option message_ptr)) (n : Nat)
    (hlive : live messages n) :
    halving_order messages n ↔ ∀ i, 1 ≤ i → i < n → prio messages (i / 2) ≤ prio messages i := by
  constructor
  · intro h i hi1 hin
    obtain ⟨a, ha⟩ := hlive (i / 2) (by omega)
    obtain ⟨b, hb⟩ := hlive i hin
    rw [prio_of_get ha, prio_of_get hb]
    exact (slot_le_iff ha hb).1 (h i hin hi1)
  · intro h i hin hi1
    obtain ⟨a, ha⟩ := hlive (i / 2) (by omega)
    obtain ⟨b, hb⟩ := hlive i hin
    have := h i hi1 hin
    rw [prio_of_get ha, prio_of_get hb] at this
    exact (slot_le_iff ha hb).2 this

theorem wide_queue_spec :
    wide_queue.last_element = 2 ^ 32 ∧ wide_queue.messages.length = 2 ^ 32 + 1
      ∧ wide_queue.queue_size = 2 ^ 32 + 1 ∧ flat 5 wide_queue.messages (2 ^ 32)
      ∧ wide_queue.messages[2 ^ 32]? = some none := by
  obtain ⟨hcl, hc0⟩ := create_queue_wide
  have hvalid : ∀ c ∈ (List.range (2 ^ 32)).map flat_call, c.valid ∧ c.priority = 5 := by
    intro c hc
    obtain ⟨i, _, rfl⟩ := List.mem_map.1 hc
    exact flat_call_valid i
  obtain ⟨q1, hrun1, hlen1, hlast1, hflat1⟩ :=
    add_messages_flat 5 ((List.range (2 ^ 32)).map flat_call) (create_queue wide_capacity)
      hvalid
      (by rw [hc0, hcl, List.length_map, List.length_range]; omega)
      (by rw [hc0, List.length_map, List.length_range]; omega)
      (by rw [hc0]; exact fun i hi => absurd hi (Nat.not_lt_zero i))
  obtain ⟨q2, hrun2, _, hsize2, hlast2, _, _, hframe2⟩ :=
    add_messages_ok ((List.range (2 ^ 32)).map flat_call) (create_queue wide_capacity)
      (fun c hc => (hvalid c hc).1)
      (by rw [hc0, hcl, List.length_map, List.length_range]; omega)
      (by rw [hc0, List.length_map, List.length_range]; omega)
      (by rw [hc0]; exact live_zero _)
      (by rw [hc0]; exact fun i _ hi => absurd hi (Nat.not_lt_zero i))
  rw [hrun1] at hrun2
  cases hrun2
  have hw : wide_queue = q1 := by
    unfold wide_queue
    rw [hrun1]
    rfl
  rw [hc0, List.length_map, List.length_range, Nat.zero_add] at hlast1
  rw [hw]
  refine ⟨hlast1, by rw [hlen1, hcl], by rw [hsize2]; rfl, by rw [hlast1] at hflat1; exact hflat1,
    ?_⟩
  have hwc : wide_capacity = 2 ^ 32 + 1 := rfl
  rw [hframe2 (2 ^ 32) (by omega),
    create_queue_messages wide_capacity (by rw [hwc]; norm_num), List.getElem?_replicate,
    if_pos (by rw [hwc]; omega)]

theorem flat_live {P : Nat} {messages : List (Option message_ptr)} {n : Nat}
    (h : flat P messages n) : live messages n := by
  intro i hi
  obtain ⟨p, hp, _⟩ := h i hi
  exact ⟨p, hp⟩

theorem flat_halving_order {P : Nat} {messages : List (Option message_ptr)} {n : Nat}
    (h : flat P messages n) : halving_order messages n := by
  intro i hi hi1
  obtain ⟨a, ha, haP⟩ := h (i / 2) (by omega)
  obtain ⟨b, hb, hbP⟩ := h i hi
  rw [slot_le_iff ha hb, haP, hbP]

theorem wide_last_call_valid : wide_last_call.valid :=
  ⟨by show 4096 * (2 ^ 32 + 1) ≠ 0; norm_num, Nat.zero_le _, Nat.zero_le _⟩

/-- An `add_message` of priority 9 at `last_element = 2 ^ 32` over slots of priority 5
returns 0; its record replaces the one of slot 0 and `last_element` becomes `2 ^ 32 + 1`. -/
theorem add_message_wrap_spec (queue : message_queue_t) (c : add_call) (hc : c.valid)
    (hP : c.priority = 9) (hlast : queue.last_element = 2 ^ 32)
    (hflat : flat 5 queue.messages (2 ^ 32)) :
    ∃ queue1 record, add_call.run queue c = .ret 0 queue1
      ∧ queue1.messages = queue.messages.set 0 (some record)
      ∧ record.obj.priority = 9
      ∧ queue1.last_element = 2 ^ 32 + 1
      ∧ queue1.queue_size = queue.queue_size :=
  ⟨_, _, add_message_wrap queue c hc hP hlast hflat, rfl, hP, rfl, rfl⟩

theorem wide_queue_add :
    ∃ queue1 record, add_call.run wide_queue wide_last_call = .ret 0 queue1
      ∧ queue1.messages = wide_queue.messages.set 0 (some record)
      ∧ record.obj.priority = 9
      ∧ queue1.last_element = 2 ^ 32 + 1
      ∧ queue1.queue_size = wide_queue.queue_size :=
  add_message_wrap_spec wide_queue wide_last_call wide_last_call_valid rfl wide_queue_spec.1
    wide_queue_spec.2.2.2.1

/-- Claim C17, the code at the failing input: the queue `wide_queue` (capacity `2 ^ 32 + 1`,
`c = 2 ^ 32` live slots, all of priority 5) satisfies the halving order; the call of
priority 9 returns 0 and, `curr_index` being truncated to 0, stores its record in slot 0,
above the priority 5 of slot 1, so the order fails over `[0, c + 1)`. -/
theorem add_message_halving_order_wide :
    live wide_queue.messages wide_queue.last_element
      ∧ wide_queue.last_element < wide_queue.queue_size
      ∧ halving_order wide_queue.messages wide_queue.last_element
      ∧ wide_last_call.data_size ≤ MSG_SIZE
      ∧ ∃ queue1, add_call.run wide_queue wide_last_call = .ret 0 queue1
          ∧ ¬ halving_order queue1.messages (wide_queue.last_element + 1) := by
  obtain ⟨hlast, hlen, hsize, hflat, hnone⟩ := wide_queue_spec
  obtain ⟨queue1, record, hrun, hmsgs, hrec, _, _⟩ := wide_queue_add
  refine ⟨by rw [hlast]; exact flat_live hflat, by rw [hlast, hsize]; omega,
    by rw [hlast]; exact flat_halving_order hflat, Nat.zero_le _, queue1, hrun, ?_⟩
  intro hord
  have h1 := hord 1 (by rw [hlast]; omega) (Nat.le_refl _)
  obtain ⟨r, hr, hrP⟩ := hflat 1 (by norm_num)
  have h0len : 0 < wide_queue.messages.length := by rw [hlen]; omega
  have hs0 : queue1.messages[1 / 2]? = some (some record) := by
    rw [hmsgs]
    exact List.getElem?_set_self h0len
  have hs1 : queue1.messages[1]? = some (some r) := by
    rw [hmsgs, List.getElem?_set_ne (by norm_num)]
    exact hr
  have h9 := (slot_le_iff hs0 hs1).1 h1
  rw [hrP, hrec] at h9
  omega

/-- Within the range of the 32-bit slot index: if a queue with all slots `[0, c)` live,
`c < queue_size` and `c < 2 ^ 32` satisfies `priority(messages[i / 2]) ≤ priority(messages[i])`
for every `1 ≤ i < c`, then `add_message` (with `data_size ≤ MSG_SIZE`, the record allocated)
returns 0 and the same order holds for every `1 ≤ i < c + 1`. -/
theorem add_message_halving_order (queue : message_queue_t) (new_message id command priority
    error_code data_size : Nat) (data : List Nat) (hsize : data_size ≤ MSG_SIZE)
    (hnew : new_message ≠ 0) (hdata : data_size ≤ data.length)
    (hlt : queue.last_element < queue.queue_size)
    (hcap : queue.messages.length = queue.queue_size)
    (h32 : queue.last_element < 2 ^ 32)
    (hlive : live queue.messages queue.last_element)
    (hord : halving_order queue.messages queue.last_element) :
    ∃ queue1, add_message queue new_message id command priority error_code data_size data
        = .ret 0 queue1
      ∧ queue1.last_element = queue.last_element + 1
      ∧ live queue1.messages (queue.last_element + 1)
      ∧ halving_order queue1.messages (queue.last_element + 1) := by
  obtain ⟨q1, hrun, _, _, hlast1, hlive1, hord1, _⟩ :=
    add_message_ok queue new_message id command priority error_code data_size data hsize hnew
      hdata (by omega) h32 hlive ((halving_order_iff_prio _ _ hlive).1 hord)
  exact ⟨q1, hrun, hlast1, hlive1, (halving_order_iff_prio _ _ hlive1).2 hord1⟩

theorem scenario_queue_halving_order :
    halving_order scenario_queue.messages scenario_queue.last_element := by
  decide

/-- Witness for `add_message_halving_order`: a fourth call on the queue of scenario 1. -/
theorem add_message_halving_order_witness :
    ∃ queue1, add_message scenario_queue 16384 7 1 2 0 4 test_payload = .ret 0 queue1
      ∧ queue1.last_element = scenario_queue.last_element + 1
      ∧ live queue1.messages (scenario_queue.last_element + 1)
      ∧ halving_order queue1.messages (scenario_queue.last_element + 1) :=
  add_message_halving_order scenario_queue 16384 7 1 2 0 4 test_payload (by decide) (by decide)
    (by decide) (by decide) (by decide) (by decide) scenario_queue_live
    scenario_queue_halving_order

theorem set_swap_perm {α : Type} [DecidableEq α] (l : List α) (a b : Nat) (x y : α)
    (hx : l[a]? = some x) (hy : l[b]? = some y) (hab : a ≠ b) :
    List.Perm ((l.set b x).set a y) l := by
  have ha : a < l.length := by
    by_contra hge
    rw [List.getElem?_eq_none (by omega)] at hx
    cases hx
  have hb : b < l.length := by
    by_contra hge
    rw [List.getElem?_eq_none (by omega)] at hy
    cases hy
  have hxa : l[a] = x := by
    rw [List.getElem?_eq_getElem ha] at hx
    exact Option.some.inj hx
  have hyb : l[b] = y := by
    rw [List.getElem?_eq_getElem hb] at hy
    exact Option.some.inj hy
  rw [List.perm_iff_count]
  intro z
  have hb2 : a < (l.set b x).length := by rw [List.length_set]; exact ha
  rw [List.count_set _ _ _ _ hb2, List.count_set _ _ _ _ hb]
  have h1 : (l.set b x)[a] = x := by
    rw [List.getElem_set_ne (Ne.symm hab)]
    exact hxa
  rw [h1, hyb]
  have hcy : (if (y == z) = true then 1 else 0) ≤ List.count z l := by
    by_cases hyz : y = z
    · subst hyz
      simp only [beq_self_eq_true, if_true]
      exact List.count_pos_iff.2 (List.getElem?_mem hy)
    · have : (y == z) = false := by simpa using hyz
      rw [this]
      simp
  omega

theorem take_set_succ {α : Type} (l : List α) (c : Nat) (x : α) (hc : c < l.length) :
    (l.set c x).take (c + 1) = l.take c ++ [x] := by
  have h : (l.set c x).take c = l.take c :=
    List.ext_getElem? fun i => by
      rw [List.getElem?_take, List.getElem?_take]
      split
      · rw [List.getElem?_set_ne (by omega)]
      · rfl
  rw [List.take_succ, List.getElem?_set_self hc, h]
  rfl

theorem add_message_loop_perm (L : Nat) (new_message : message_ptr) :
    ∀ (fuel : Nat) (messages messages1 : List (Option message_ptr))
      (curr_index parent_index : Nat),
      curr_index < L → parent_index < L →
      messages[curr_index]? = some (some new_message) →
      add_message_loop fuel messages new_message curr_index parent_index
        = .ret () messages1 →
      List.Perm (messages1.take L) (messages.take L)
        ∧ ∀ i, L ≤ i → messages1[i]? = messages[i]? := by
  intro fuel
  induction fuel with
  | zero =>
    intro messages messages1 c p _ _ _ h
    simp [add_message_loop] at h
  | succ f ih =>
    intro messages messages1 c p hc hp hnew h
    rcases hpm : messages[p]? with _ | _ | pm
    · simp [add_message_loop, hnew, hpm] at h
    · simp [add_message_loop, hnew, hpm] at h
    · rw [add_message_loop_step f messages new_message new_message pm c p hnew hpm] at h
      by_cases hlt : new_message.obj.priority < pm.obj.priority
      · rw [if_pos hlt] at h
        have hne : c ≠ p := by
          intro e
          rw [e, hpm] at hnew
          cases hnew
          exact Nat.lt_irrefl _ hlt
        have hplen : p < messages.length := by
          by_contra hge
          rw [List.getElem?_eq_none (by omega)] at hpm
          cases hpm
        obtain ⟨hperm, hframe⟩ := ih _ messages1 p (p / 2) hp (by omega)
          (by rw [List.getElem?_set_ne hne]; exact List.getElem?_set_self hplen) h
        constructor
        · refine hperm.trans ?_
          rw [List.set_take, List.set_take]
          exact set_swap_perm (messages.take L) c p (some new_message) (some pm)
            (by rw [List.getElem?_take_of_lt hc]; exact hnew)
            (by rw [List.getElem?_take_of_lt hp]; exact hpm) hne
        · intro i hi
          rw [hframe i hi, List.getElem?_set_ne (by omega), List.getElem?_set_ne (by omega)]
      · rw [if_neg hlt] at h
        cases h
        exact ⟨List.Perm.refl _, fun _ _ => rfl⟩

/-- Within the range of the 32-bit slot index: for every queue with all slots `[0, c)` live,
`c < queue_size` and `c < 2 ^ 32`, and every call with `data_size ≤ MSG_SIZE` (the record
allocated), `add_message` returns 0, the slots `[0, c + 1)` afterwards are a permutation of
the slots previously in `[0, c)` plus the new record, and the slots at indices `> c` and
`queue_size` are unchanged. -/
theorem add_message_permutation (queue : message_queue_t) (new_message id command priority
    error_code data_size : Nat) (data : List Nat) (hsize : data_size ≤ MSG_SIZE)
    (hnew : new_message ≠ 0) (hdata : data_size ≤ data.length)
    (hlt : queue.last_element < queue.queue_size)
    (hcap : queue.messages.length = queue.queue_size)
    (h32 : queue.last_element < 2 ^ 32)
    (hlive : live queue.messages queue.last_element) :
    ∃ queue1, add_message queue new_message id command priority error_code data_size data
        = .ret 0 queue1
      ∧ List.Perm (queue1.messages.take (queue.last_element + 1))
          (queue.messages.take queue.last_element
            ++ [some (new_record new_message id command priority error_code data_size data)])
      ∧ (∀ i, queue.last_element < i → queue1.messages[i]? = queue.messages[i]?)
      ∧ queue1.queue_size = queue.queue_size := by
  have hlen : queue.last_element < queue.messages.length := by omega
  have hm1 : queue.last_element % 2 ^ 32 = queue.last_element := Nat.mod_eq_of_lt h32
  have hm2 : (queue.last_element / 2) % 2 ^ 32 = queue.last_element / 2 :=
    Nat.mod_eq_of_lt (by omega)
  obtain ⟨q1, hrun, _, hsz, _⟩ := add_message_returns queue new_message id command priority
    error_code data_size data hsize hnew hdata hlen hlive
  refine ⟨q1, hrun, ?_⟩
  rw [add_message_eq queue new_message id command priority error_code data_size data hsize hnew
    hdata (by omega), hm1, hm2] at hrun
  split at hrun
  · rename_i u m1 hloop
    cases hrun
    obtain ⟨hperm, hframe⟩ := add_message_loop_perm (queue.last_element + 1) _ _ _ m1 _ _
      (Nat.lt_succ_self _) (by omega) (List.getElem?_set_self hlen) hloop
    refine ⟨?_, ?_, rfl⟩
    · rw [← take_set_succ queue.messages queue.last_element _ hlen]
      exact hperm
    · intro i hi
      show m1[i]? = _
      rw [hframe i (by omega), List.getElem?_set_ne (by omega)]
  · cases hrun
  · cases hrun

/-- Witness for `add_message_permutation`: a fourth call on the queue of scenario 1. -/
theorem add_message_permutation_witness :
    ∃ queue1, add_message scenario_queue 16384 7 1 2 0 4 test_payload = .ret 0 queue1
      ∧ List.Perm (queue1.messages.take (scenario_queue.last_element + 1))
          (scenario_queue.messages.take scenario_queue.last_element
            ++ [some (new_record 16384 7 1 2 0 4 test_payload)])
      ∧ (∀ i, scenario_queue.last_element < i →
          queue1.messages[i]? = scenario_queue.messages[i]?)
      ∧ queue1.queue_size = scenario_queue.queue_size :=
  add_message_permutation scenario_queue 16384 7 1 2 0 4 test_payload (by decide) (by decide)
    (by decide) (by decide) (by decide) (by decide) scenario_queue_live

/-- Claim C18, the code at the failing input: on `wide_queue` (`c = 2 ^ 32` live slots,
`c < queue_size`) the call returns 0, but `curr_index` is truncated to 0: the record of
slot 0 is overwritten and slot `c` stays `NULL`, so the slots `[0, c + 1)` afterwards are not
a permutation of the previous slots `[0, c)` plus a new record. -/
theorem add_message_permutation_wide :
    live wide_queue.messages wide_queue.last_element
      ∧ wide_queue.last_element < wide_queue.queue_size
      ∧ wide_last_call.data_size ≤ MSG_SIZE
      ∧ ∃ queue1, add_call.run wide_queue wide_last_call = .ret 0 queue1
          ∧ queue1.messages[wide_queue.last_element]? = some none
          ∧ ∀ record : message_ptr,
              ¬ List.Perm (queue1.messages.take (wide_queue.last_element + 1))
                (wide_queue.messages.take wide_queue.last_element ++ [some record]) := by
  obtain ⟨hlast, hlen, hsize, hflat, hnone⟩ := wide_queue_spec
  obtain ⟨queue1, record, hrun, hmsgs, _, _, _⟩ := wide_queue_add
  have hslot : queue1.messages[2 ^ 32]? = some none := by
    rw [hmsgs, List.getElem?_set_ne (by norm_num)]
    exact hnone
  rw [hlast]
  refine ⟨flat_live hflat, by rw [hsize]; omega, Nat.zero_le _, queue1, hrun, hslot, ?_⟩
  intro x hperm
  have hmem : (none : Option message_ptr) ∈ queue1.messages.take (2 ^ 32 + 1) :=
    List.getElem?_mem (n := 2 ^ 32) (by rw [List.getElem?_take_of_lt (by omega)]; exact hslot)
  rcases List.mem_append.1 (hperm.mem_iff.1 hmem) with h | h
  · obtain ⟨n, hn⟩ := List.mem_iff_getElem?.1 h
    rw [List.getElem?_take] at hn
    split at hn
    · rename_i hlt
      obtain ⟨p, hp, _⟩ := hflat n hlt
      rw [hp] at hn
      cases hn
    · cases hn
  · rw [List.mem_singleton] at h
    cases h

/-! ## C11: density -/

theorem add_message_ret_zero_inv (queue queue1 : message_queue_t) (new_message id command
    priority error_code data_size : Nat) (data : List Nat)
    (h : add_message queue new_message id command priority error_code data_size data
      = .ret 0 queue1) :
    data_size ≤ MSG_SIZE ∧ new_message ≠ 0 ∧ data_size ≤ data.length
      ∧ queue.last_element % 2 ^ 32 < queue.messages.length := by
  unfold add_message at h
  simp only at h
  by_cases h1 : data_size > MSG_SIZE
  · rw [if_pos h1] at h
    injection h with hr _
    omega
  · rw [if_neg h1] at h
    by_cases h2 : new_message = 0
    · rw [if_pos h2] at h; cases h
    · rw [if_neg h2] at h
      by_cases h3 : data.length < data_size
      · rw [if_pos h3] at h; cases h
      · rw [if_neg h3] at h
        by_cases h4 : queue.last_element % 2 ^ 32 < queue.messages.length
        · exact ⟨by omega, h2, by omega, h4⟩
        · rw [if_neg h4] at h; cases h

theorem add_message_dense (n : Nat) (queue queue1 : message_queue_t) (new_message id command
    priority error_code data_size : Nat) (data : List Nat) (hd : dense_queue n queue)
    (hlt : queue.last_element < queue.queue_size) (h32 : queue.last_element < 2 ^ 32)
    (h : add_message queue new_message id command priority error_code data_size data
      = .ret 0 queue1) :
    dense_queue n queue1 ∧ queue1.last_element = queue.last_element + 1 := by
  obtain ⟨hlen, hsz, hle, hlive, hvac⟩ := hd
  obtain ⟨hsize, hnew, hdata, _⟩ := add_message_ret_zero_inv queue queue1 new_message id
    command priority error_code data_size data h
  have hl : queue.last_element < queue.messages.length := by omega
  have hm1 : queue.last_element % 2 ^ 32 = queue.last_element := Nat.mod_eq_of_lt h32
  have hm2 : (queue.last_element / 2) % 2 ^ 32 = queue.last_element / 2 :=
    Nat.mod_eq_of_lt (by omega)
  have hm3 : (queue.last_element + 1) % 2 ^ 64 = queue.last_element + 1 :=
    Nat.mod_eq_of_lt (by omega)
  rw [add_message_eq queue new_message id command priority error_code data_size data hsize hnew
    hdata (by omega), hm1, hm2, hm3] at h
  generalize new_record new_message id command priority error_code data_size data = record at h
  have hslot : (queue.messages.set queue.last_element (some record))[queue.last_element]?
      = some (some record) := List.getElem?_set_self hl
  have hlive0 : live (queue.messages.set queue.last_element (some record))
      (queue.last_element + 1) := by
    intro i hi
    by_cases e : i = queue.last_element
    · exact ⟨record, by rw [e]; exact hslot⟩
    · obtain ⟨p, hp⟩ := hlive i (by omega)
      exact ⟨p, by rw [List.getElem?_set_ne (Ne.symm e)]; exact hp⟩
  obtain ⟨m1, hrun, hlen1, hlive1, hframe⟩ :=
    add_message_loop_returns (queue.last_element + 1) record (queue.last_element / 2 + 2)
      (queue.messages.set queue.last_element (some record)) queue.last_element
      (queue.last_element / 2) (by omega) (by omega) hlive0 hslot (by intro _; omega)
      (by intro _; omega)
  rw [hrun] at h
  cases h
  refine ⟨⟨?_, hsz, by show queue.last_element + 1 ≤ n; omega, hlive1, ?_⟩, rfl⟩
  · show m1.length = n
    rw [hlen1, List.length_set, hlen]
  · intro i hi hin
    show m1[i]? = some none
    have hi2 : queue.last_element + 1 ≤ i := hi
    rw [hframe i hi2, List.getElem?_set_ne (by omega)]
    exact hvac i (by omega) hin

theorem pop_queue_dense (n fuel : Nat) (queue : message_queue_t) (data : List Nat)
    (s : message_queue_t × List Nat) (hd : dense_queue n queue)
    (h1 : queue.last_element ≠ 0) (h64 : queue.last_element < 2 ^ 64)
    (h : pop_queue fuel queue data = .ret () s) :
    dense_queue n s.1 ∧ s.1.last_element = queue.last_element - 1 := by
  obtain ⟨hlen, hsz, hle, hlive, hvac⟩ := hd
  obtain ⟨lm, hlm, hmsgs, hsz1, hlast1, hother, hone, hmany⟩ :=
    pop_queue_ret_slots fuel queue data s (by omega) h64 h
  refine ⟨⟨?_, by rw [hsz1, hsz], by rw [hlast1]; omega, ?_, ?_⟩, hlast1⟩
  · rw [hmsgs, List.length_set, List.length_set, hlen]
  · rw [hlast1]
    intro i hi
    by_cases e : i = 0
    · subst e
      obtain ⟨p, hp⟩ := hlive (queue.last_element - 1) (by omega)
      rw [hp] at hlm
      cases hlm
      exact ⟨p, hmany (by omega)⟩
    · obtain ⟨p, hp⟩ := hlive i (by omega)
      exact ⟨p, by rw [hother i e (by omega)]; exact hp⟩
  · rw [hlast1]
    intro i hi hin
    by_cases e : i = queue.last_element - 1
    · rw [hmsgs, e]
      exact List.getElem?_set_self (by rw [List.length_set]; omega)
    · by_cases e0 : i = 0
      · omega
      · rw [hother i e0 e]
        exact hvac i (by omega) hin

theorem create_queue_dense (n : Nat) (hn : n * 8 < 2 ^ 64) :
    dense_queue n (create_queue n) := by
  refine ⟨?_, rfl, Nat.zero_le _, live_zero _, ?_⟩
  · rw [create_queue_messages n hn, List.length_replicate]
  · intro i _ hin
    rw [create_queue_messages n hn, List.getElem?_replicate, if_pos hin]

theorem run_ops_dense (n fuel : Nat) :
    ∀ (ops : List queue_op) (start queue : message_queue_t),
      dense_queue n start →
      run_ops fuel start ops = some queue →
      (n ≤ 2 ^ 32 ∨
        ∀ j q, run_ops fuel start (ops.take j) = some q → q.last_element ≤ 2 ^ 32) →
      dense_queue n queue := by
  intro ops
  induction ops with
  | nil =>
    intro start queue hd hrun _
    cases hrun
    exact hd
  | cons op ops ih =>
    intro start queue hd hrun h32
    cases op with
    | add c =>
      unfold run_ops at hrun
      split_ifs at hrun with hlt
      rcases hstep : add_call.run start c with ⟨r, q1⟩ | ⟨f, q1⟩ | q1
      · rw [hstep] at hrun
        rcases r with _ | r
        · simp only at hrun
          have hinv := add_message_ret_inv start q1 c.new_message c.id c.command c.priority
            c.error_code c.data_size 0 c.data
            (add_message_ret_zero_inv start q1 c.new_message c.id c.command c.priority
              c.error_code c.data_size c.data hstep).1 hstep
          have h32s : start.last_element < 2 ^ 32 := by
            rcases h32 with hn | h32
            · have := hd.2.1
              omega
            · have hstart : start.last_element ≤ 2 ^ 32 := h32 0 start rfl
              have hq1 : q1.last_element ≤ 2 ^ 32 := by
                apply h32 1 q1
                show run_ops fuel start [queue_op.add c] = some q1
                unfold run_ops
                rw [if_pos hlt, hstep]
                rfl
              have := hinv.2.1
              omega
          obtain ⟨hd1, _⟩ := add_message_dense n start q1 c.new_message c.id c.command
            c.priority c.error_code c.data_size c.data hd hlt h32s hstep
          refine ih q1 queue hd1 hrun ?_
          rcases h32 with hn | h32
          · exact Or.inl hn
          · refine Or.inr ?_
            intro j q hj
            apply h32 (j + 1) q
            show run_ops fuel start (queue_op.add c :: ops.take j) = some q
            unfold run_ops
            rw [if_pos hlt, hstep]
            exact hj
        · simp only at hrun
          cases hrun
      · rw [hstep] at hrun
        cases hrun
      · rw [hstep] at hrun
        cases hrun
    | pop data =>
      unfold run_ops at hrun
      split_ifs at hrun with h0
      rcases hstep : pop_queue fuel start data with ⟨r, s⟩ | ⟨f, s⟩ | s
      · rw [hstep] at hrun
        simp only at hrun
        have h64 : start.last_element < 2 ^ 64 := by
          rcases h32 with hn | h32
          · have := hd.2.2.1
            omega
          · have hstart : start.last_element ≤ 2 ^ 32 := h32 0 start rfl
            omega
        obtain ⟨hd1, _⟩ := pop_queue_dense n fuel start data s hd h0 h64 hstep
        refine ih s.1 queue hd1 hrun ?_
        rcases h32 with hn | h32
        · exact Or.inl hn
        · refine Or.inr ?_
          intro j q hj
          apply h32 (j + 1) q
          show run_ops fuel start (queue_op.pop data :: ops.take j) = some q
          unfold run_ops
          rw [if_neg h0, hstep]
          exact hj
      · rw [hstep] at hrun
        cases hrun
      · rw [hstep] at hrun
        cases hrun

theorem run_ops_small (n fuel : Nat) (hn : n ≤ 2 ^ 32) (ops : List queue_op) :
    ∀ j q, run_ops fuel (create_queue n) (ops.take j) = some q → q.last_element ≤ 2 ^ 32 := by
  intro j q h
  have := (run_ops_dense n fuel (ops.take j) (create_queue n) q
    (create_queue_dense n (by omega)) h (Or.inl hn)).2.2.1
  omega

theorem run_ops_adds (fuel : Nat) :
    ∀ (calls : List add_call) (queue queue1 : message_queue_t),
      add_messages queue calls = some queue1 →
      queue.last_element + calls.length ≤ queue.queue_size →
      queue.queue_size < 2 ^ 64 →
      run_ops fuel queue (calls.map queue_op.add) = some queue1 := by
  intro calls
  induction calls with
  | nil =>
    intro queue queue1 h _ _
    exact h
  | cons c cs ih =>
    intro queue queue1 h hle h64
    simp only [List.length_cons] at hle
    unfold add_messages at h
    rcases hstep : add_call.run queue c with ⟨r, q1⟩ | ⟨f, q1⟩ | q1
    · rw [hstep] at h
      rcases r with _ | r
      · simp only at h
        have hinv := add_message_ret_inv queue q1 c.new_message c.id c.command c.priority
          c.error_code c.data_size 0 c.data
          (add_message_ret_zero_inv queue q1 c.new_message c.id c.command c.priority
            c.error_code c.data_size c.data hstep).1 hstep
        have hl1 : q1.last_element = queue.last_element + 1 := by
          rw [hinv.2.1]
          exact Nat.mod_eq_of_lt (by omega)
        show run_ops fuel queue (queue_op.add c :: cs.map queue_op.add) = some queue1
        unfold run_ops
        rw [if_pos (by omega), hstep]
        exact ih q1 queue1 h (by rw [hl1, hinv.2.2]; omega) (by rw [hinv.2.2]; exact h64)
      · simp only at h
        cases h
    · rw [hstep] at h
      cases h
    · rw [hstep] at h
      cases h

theorem add_messages_snoc (calls : List add_call) (c : add_call)
    (queue queue1 queue2 : message_queue_t) (h1 : add_messages queue calls = some queue1)
    (h2 : add_call.run queue1 c = .ret 0 queue2) :
    add_messages queue (calls ++ [c]) = some queue2 := by
  rw [add_messages_append, h1, Option.some_bind]
  unfold add_messages
  rw [h2]
  rfl

theorem wide_queue_run :
    add_messages (create_queue wide_capacity) ((List.range (2 ^ 32)).map flat_call)
      = some wide_queue := by
  obtain ⟨hcl, hc0⟩ := create_queue_wide
  obtain ⟨q1, hrun1, _, _, _⟩ :=
    add_messages_flat 5 ((List.range (2 ^ 32)).map flat_call) (create_queue wide_capacity)
      (by
        intro c hc
        obtain ⟨i, _, rfl⟩ := List.mem_map.1 hc
        exact flat_call_valid i)
      (by rw [hc0, hcl, List.length_map, List.length_range]; omega)
      (by rw [hc0, List.length_map, List.length_range]; omega)
      (by rw [hc0]; exact fun i hi => absurd hi (Nat.not_lt_zero i))
  have hw : wide_queue = q1 := by
    unfold wide_queue
    rw [hrun1]
    rfl
  rw [hw]
  exact hrun1

/-- Claim C11, the code at the failing input: `2 ^ 32 + 1` successful `add_message` calls on
`create_queue (2 ^ 32 + 1)`, the count never above the capacity: afterwards
`last_element = 2 ^ 32 + 1` but slot `2 ^ 32` is `NULL`, a hole below `last_element` (the
last record went to slot 0, `curr_index` being truncated to 32 bits). -/
theorem density_wide :
    ∃ queue, run_ops 0 (create_queue wide_capacity) (wide_calls.map queue_op.add) = some queue
      ∧ queue.last_element = 2 ^ 32 + 1
      ∧ queue.last_element ≤ wide_capacity
      ∧ 2 ^ 32 < queue.last_element
      ∧ queue.messages[2 ^ 32]? = some none := by
  obtain ⟨_, _, _, _, hnone⟩ := wide_queue_spec
  obtain ⟨queue1, record, hrun, hmsgs, _, hlast1, _⟩ := wide_queue_add
  have hlen : wide_calls.length = 2 ^ 32 + 1 := by
    unfold wide_calls
    rw [List.length_append, List.length_map, List.length_range]
    rfl
  have hadd : add_messages (create_queue wide_capacity) wide_calls = some queue1 :=
    add_messages_snoc _ _ _ _ _ wide_queue_run hrun
  refine ⟨queue1, ?_, hlast1, by rw [hlast1]; exact Nat.le_refl _, by rw [hlast1]; omega, ?_⟩
  · have hq : (create_queue wide_capacity).queue_size = wide_capacity := rfl
    have hl : (create_queue wide_capacity).last_element = 0 := rfl
    have hw : wide_capacity = 2 ^ 32 + 1 := rfl
    apply run_ops_adds 0 wide_calls (create_queue wide_capacity) queue1 hadd
    · rw [hlen, hq, hl, hw]
      omega
    · rw [hq, hw]
      omega
  · rw [hmsgs, List.getElem?_set_ne (by norm_num)]
    exact hnone

/-- Within the range of the 32-bit slot index: after any sequence of successful
`add_message` and `pop_queue` calls starting from `create_queue n` (the slot array allocated,
the count staying within `[0, n]`, `pop_queue` only on non-empty queues) during which the
count never exceeds `2 ^ 32`, every slot below `last_element` holds a record and every other
slot is `NULL`. -/
theorem density (n fuel : Nat) (ops : List queue_op) (queue : message_queue_t)
    (hn : n * 8 < 2 ^ 64)
    (hrun : run_ops fuel (create_queue n) ops = some queue)
    (h32 : ∀ j q, run_ops fuel (create_queue n) (ops.take j) = some q →
      q.last_element ≤ 2 ^ 32) :
    (∀ i, i < queue.last_element → ∃ p, queue.messages[i]? = some (some p))
      ∧ (∀ i, queue.last_element ≤ i → i < n → queue.messages[i]? = some none)
      ∧ queue.last_element ≤ n := by
  obtain ⟨_, _, hle, hlive, hvac⟩ :=
    run_ops_dense n fuel ops (create_queue n) queue (create_queue_dense n hn) hrun
      (Or.inr h32)
  exact ⟨hlive, hvac, hle⟩

/-- Witness for `density`: the five calls of `unsorted_calls` on `create_queue 5` followed by
two returning `pop_queue` calls. -/
theorem density_witness :
    (∀ i, i < density_queue.last_element → ∃ p, density_queue.messages[i]? = some (some p))
      ∧ (∀ i, density_queue.last_element ≤ i → i < 5 →
          density_queue.messages[i]? = some none)
      ∧ density_queue.last_element ≤ 5 :=
  density 5 1 density_ops density_queue (by decide) rfl
    (run_ops_small 5 1 (by norm_num) density_ops)

/-! ## C15, C16: the code at the inputs where it departs from the specification -/

/-- Claim C15, the code at the failing input: scenario 1 of the specification.  On the queue
holding priorities [1, 5] (capacity 4) the call of priority 3 makes `add_message` produce the
arrangement [1, 3, 5], while the reference sift-up with `parent(i) = (i - 1) / 2` produces
[1, 5, 3]. -/
theorem add_message_differs_from_spec_sift_up :
    ∃ queue queue1, add_messages (create_queue 4) (scenario_calls.take 2) = some queue
      ∧ queue.last_element = 2 ∧ queue.last_element < queue.queue_size
      ∧ add_message queue 12288 0 1 3 0 3 [109, 105, 100, 0] = .ret 0 queue1
      ∧ List.map (priority_at queue1.messages) [0, 1, 2] = [some 1, some 3, some 5]
      ∧ List.map (priority_at (spec_enqueue queue.messages queue.last_element
            (new_record 12288 0 1 3 0 3 [109, 105, 100, 0]))) [0, 1, 2]
          = [some 1, some 5, some 3]
      ∧ queue1.messages ≠ spec_enqueue queue.messages queue.last_element
          (new_record 12288 0 1 3 0 3 [109, 105, 100, 0]) := by
  refine ⟨_, _, rfl, rfl, by decide, rfl, rfl, rfl, ?_⟩
  intro h
  have := congrArg (fun m => priority_at m 1) h
  revert this
  decide

/-- Claim C16, the code at the failing inputs.  With `queue_size = 1` and one record,
`pop_queue` decrements `last_element` to 0 and its loop reads slot 1, outside the allocation.
With `queue_size = 2` and the two records of `main`, the loop reads slots 1 and 2 while the
decremented `last_element` is 1, and slot 2 is outside the allocation. -/
theorem pop_queue_reads_out_of_range :
    ∃ q1 q2, add_messages (create_queue 1) [single_call] = some q1
      ∧ add_messages (create_queue 2) main_calls = some q2
      ∧ q1.last_element = 1 ∧ q1.queue_size = 1 ∧ q2.last_element = 2 ∧ q2.queue_size = 2
      ∧ (∀ fuel, pop_queue_accesses (fuel + 1) q1 main_buffer = [0, 1])
      ∧ (∀ fuel, ∃ s, pop_queue (fuel + 1) q1 main_buffer = .fault .out_of_bounds s
          ∧ s.1.last_element = 0)
      ∧ (∀ fuel, pop_queue_accesses (fuel + 1) q2 main_buffer = [0, 1, 0, 2])
      ∧ (∀ fuel, ∃ s, pop_queue (fuel + 1) q2 main_buffer = .fault .out_of_bounds s
          ∧ s.1.last_element = 1) :=
  ⟨_, _, rfl, rfl, rfl, rfl, rfl, rfl, fun _ => rfl, fun _ => ⟨_, rfl, rfl⟩, fun _ => rfl,
    fun _ => ⟨_, rfl, rfl⟩⟩

end PriorityQueue
